import Mathlib

/-
  Verification of the Citation Engine (citations.py).

  Python strings are modeled as lists of characters (`Text`), floats that
  only ever hold decimal literals and are compared and sorted are modeled
  as rationals, and fallible parsing returns `Option`.  All definitions
  are translated from the source file `citations.py`; section comments
  cite the corresponding Python functions.
-/

namespace Citations

/-- Python `str` modeled as a list of characters. -/
abbrev Text := List Char

/-- Numeric value of a decimal digit character (as in Python `int`). -/
def digitVal (c : Char) : Nat := c.toNat - 48

/-- Value of a nonempty digit string, as Python `int(s)` computes it. -/
def digitsVal (ds : Text) : Nat := ds.foldl (fun a c => 10 * a + digitVal c) 0

/-- Helper for rendering a natural number in decimal (Python `str(n)`);
the fuel argument only bounds the recursion depth and never runs out when
it starts at least at `n + 1`. -/
def natDigitsAux (fuel n : Nat) (acc : Text) : Text :=
  match fuel with
  | 0 => acc
  | fuel2 + 1 =>
    if n < 10 then Nat.digitChar n :: acc
    else natDigitsAux fuel2 (n / 10) (Nat.digitChar (n % 10) :: acc)

/-- Decimal rendering of a natural number, modeling Python `str(n)` /
f-string interpolation of an `int`. -/
def natDigits (n : Nat) : Text := natDigitsAux (n + 1) n []

/-- All matches of `re.findall(r'\[(\d+)\]', text)` in `validate_citations`,
as the list of captured digit strings, scanning left to right: at a
literal open bracket the regex requires one or more digits followed by a
close bracket, otherwise the scan advances one character.  Resuming one
character after a successful match is equivalent to the engine resuming
after the consumed match, because the skipped digits and close bracket
cannot start a new match. -/
def findMarkers (t : Text) : List Text :=
  match t with
  | [] => []
  | c :: rest =>
    if c = '[' then
      match rest.dropWhile Char.isDigit with
      | ']' :: _ =>
        if (rest.takeWhile Char.isDigit).isEmpty then findMarkers rest
        else rest.takeWhile Char.isDigit :: findMarkers rest
      | _ => findMarkers rest
    else findMarkers rest

/-- Split a text at every occurrence of one character, as Python
`str.split(sep)` with a one-character separator; also yields the lines
used by the multiline regex anchor. -/
def splitOnChar (sep : Char) : Text → List Text
  | [] => [[]]
  | c :: rest =>
    if c = sep then [] :: splitOnChar sep rest
    else
      match splitOnChar sep rest with
      | l :: ls => (c :: l) :: ls
      | [] => [[c]]

/-- One anchored match of `r'^\[(\d+)\]'` at the start of a line,
returning the captured digit string. -/
def lineMarker (l : Text) : Option Text :=
  match l with
  | '[' :: r =>
    let ds := r.takeWhile Char.isDigit
    match r.dropWhile Char.isDigit with
    | ']' :: _ => if ds.isEmpty then none else some ds
    | _ => none
  | _ => none

/-- All captures of `re.findall(r'^\[(\d+)\]', text, re.MULTILINE)`:
one potential match at the start of each line. -/
def lineStartMarkers (t : Text) : List Text :=
  (splitOnChar '\n' t).filterMap lineMarker

/-- The characters `.` `!` `?` of the sentence-splitting regexes. -/
def sentencePunct (c : Char) : Bool := c = '.' || c = '!' || c = '?'

/-- The pieces of `re.split(r'[.!?]+', text)`: maximal runs of sentence
punctuation act as separators; leading, trailing and empty pieces are
kept.  A punctuation character extends the separator run when the next
character is punctuation too, and otherwise closes an (possibly empty)
piece on its left. -/
def splitPieces : Text → List Text
  | [] => [[]]
  | c :: rest =>
    if sentencePunct c then
      match rest with
      | p :: _ => if sentencePunct p then splitPieces rest else [] :: splitPieces rest
      | [] => [[], []]
    else
      match splitPieces rest with
      | h :: tl => (c :: h) :: tl
      | [] => [[c]]

/-- Number of matches of `re.findall(r'[.!?][^.!?]*\[\d+\]', text)` in
`validate_citations`: a match is anchored at a punctuation character and
succeeds exactly when the punctuation-free run that follows it contains
an inline bracketed-digits marker.  The scan continues from the next
character; characters preceding the next punctuation anchor contribute
nothing. -/
def countCovered : Text → Nat
  | [] => 0
  | c :: rest =>
    if sentencePunct c then
      (if (findMarkers (rest.takeWhile (fun d => !sentencePunct d))).isEmpty then 0 else 1)
        + countCovered rest
    else countCovered rest

/-- Python substring test `pat in t`. -/
def isSubstring (pat : Text) : Text → Bool
  | [] => pat.isEmpty
  | c :: rest => pat.isPrefixOf (c :: rest) || isSubstring pat rest

/-- Python `t.replace(pat, rep, 1)`: replace the first occurrence only,
return `t` unchanged when `pat` does not occur. -/
def replaceFirst (pat rep : Text) : Text → Text
  | [] => if pat.isEmpty then rep else []
  | c :: rest =>
    if pat.isPrefixOf (c :: rest) then rep ++ (c :: rest).drop pat.length
    else c :: replaceFirst pat rep rest

/-- Python `str.strip()` with no argument: remove leading and trailing
whitespace. -/
def pyStrip (s : Text) : Text :=
  ((s.dropWhile Char.isWhitespace).reverse.dropWhile Char.isWhitespace).reverse

/-- Python `str.lower()` (ASCII-relevant part). -/
def pyLower (s : Text) : Text := s.map Char.toLower

/- ### MD5 (`hashlib.md5(...).hexdigest()`), over byte lists, words as
naturals reduced modulo 2^32. -/

def add32 (a b : Nat) : Nat := (a + b) % 4294967296

def not32 (a : Nat) : Nat := Nat.xor a 4294967295

def rotl32 (x s : Nat) : Nat := (x * 2 ^ s + x / 2 ^ (32 - s)) % 4294967296

def md5K : List Nat :=
  [0xd76aa478, 0xe8c7b756, 0x242070db, 0xc1bdceee,
   0xf57c0faf, 0x4787c62a, 0xa8304613, 0xfd469501,
   0x698098d8, 0x8b44f7af, 0xffff5bb1, 0x895cd7be,
   0x6b901122, 0xfd987193, 0xa679438e, 0x49b40821,
   0xf61e2562, 0xc040b340, 0x265e5a51, 0xe9b6c7aa,
   0xd62f105d, 0x02441453, 0xd8a1e681, 0xe7d3fbc8,
   0x21e1cde6, 0xc33707d6, 0xf4d50d87, 0x455a14ed,
   0xa9e3e905, 0xfcefa3f8, 0x676f02d9, 0x8d2a4c8a,
   0xfffa3942, 0x8771f681, 0x6d9d6122, 0xfde5380c,
   0xa4beea44, 0x4bdecfa9, 0xf6bb4b60, 0xbebfbc70,
   0x289b7ec6, 0xeaa127fa, 0xd4ef3085, 0x04881d05,
   0xd9d4d039, 0xe6db99e5, 0x1fa27cf8, 0xc4ac5665,
   0xf4292244, 0x432aff97, 0xab9423a7, 0xfc93a039,
   0x655b59c3, 0x8f0ccc92, 0xffeff47d, 0x85845dd1,
   0x6fa87e4f, 0xfe2ce6e0, 0xa3014314, 0x4e0811a1,
   0xf7537e82, 0xbd3af235, 0x2ad7d2bb, 0xeb86d391]

def md5S : List Nat :=
  [7, 12, 17, 22, 7, 12, 17, 22, 7, 12, 17, 22, 7, 12, 17, 22,
   5, 9, 14, 20, 5, 9, 14, 20, 5, 9, 14, 20, 5, 9, 14, 20,
   4, 11, 16, 23, 4, 11, 16, 23, 4, 11, 16, 23, 4, 11, 16, 23,
   6, 10, 15, 21, 6, 10, 15, 21, 6, 10, 15, 21, 6, 10, 15, 21]

def md5F (i b c d : Nat) : Nat :=
  if i < 16 then Nat.lor (Nat.land b c) (Nat.land (not32 b) d)
  else if i < 32 then Nat.lor (Nat.land d b) (Nat.land (not32 d) c)
  else if i < 48 then Nat.xor b (Nat.xor c d)
  else Nat.xor c (Nat.lor b (not32 d))

def md5G (i : Nat) : Nat :=
  if i < 16 then i
  else if i < 32 then (5 * i + 1) % 16
  else if i < 48 then (3 * i + 5) % 16
  else (7 * i) % 16

def md5Step (M : List Nat) (st : Nat × Nat × Nat × Nat) (i : Nat) : Nat × Nat × Nat × Nat :=
  match st with
  | (a, b, c, d) =>
    let f := add32 (add32 (add32 a (md5F i b c d)) (md5K.getD i 0)) (M.getD (md5G i) 0)
    (d, add32 b (rotl32 f (md5S.getD i 0)), b, c)

def md5ProcessBlock (st : Nat × Nat × Nat × Nat) (M : List Nat) : Nat × Nat × Nat × Nat :=
  match st, (List.range 64).foldl (md5Step M) st with
  | (a0, b0, c0, d0), (a, b, c, d) => (add32 a0 a, add32 b0 b, add32 c0 c, add32 d0 d)

def leWord (b0 b1 b2 b3 : Nat) : Nat := b0 + 256 * b1 + 65536 * b2 + 16777216 * b3

def bytesToWords : List Nat → List Nat
  | b0 :: b1 :: b2 :: b3 :: rest => leWord b0 b1 b2 b3 :: bytesToWords rest
  | _ => []

def chunks64Aux (fuel : Nat) (bs : List Nat) : List (List Nat) :=
  match fuel, bs with
  | _, [] => []
  | 0, _ => []
  | fuel2 + 1, b :: bs2 => (b :: bs2).take 64 :: chunks64Aux fuel2 ((b :: bs2).drop 64)

def chunks64 (bs : List Nat) : List (List Nat) := chunks64Aux bs.length bs

def leBytes8 (n : Nat) : List Nat :=
  (List.range 8).map fun i => n % 18446744073709551616 / 2 ^ (8 * i) % 256

def md5Pad (msg : List Nat) : List Nat :=
  let len := msg.length
  let padLen := (56 + 64 - (len + 1) % 64) % 64
  msg ++ [128] ++ List.replicate padLen 0 ++ leBytes8 (8 * len)

def md5Words (msg : List Nat) : Nat × Nat × Nat × Nat :=
  (chunks64 (md5Pad msg)).foldl (fun st c => md5ProcessBlock st (bytesToWords c))
    (0x67452301, 0xefcdab89, 0x98badcfe, 0x10325476)

def byteHex (b : Nat) : Text := [Nat.digitChar (b / 16 % 16), Nat.digitChar (b % 16)]

def wordLEHex (w : Nat) : Text :=
  byteHex (w % 256) ++ byteHex (w / 256 % 256) ++ byteHex (w / 65536 % 256) ++
    byteHex (w / 16777216 % 256)

def md5Hex (msg : List Nat) : Text :=
  match md5Words msg with
  | (a, b, c, d) => wordLEHex a ++ wordLEHex b ++ wordLEHex c ++ wordLEHex d

/-- A hexadecimal digit as produced by `hexdigest` (lowercase). -/
def isHexChar (c : Char) : Bool := c.isDigit || ('a' ≤ c && c ≤ 'f')

/-- UTF-8 encoding of one character (Python `str.encode()`). -/
def utf8Char (c : Char) : List Nat :=
  let n := c.toNat
  if n < 128 then [n]
  else if n < 2048 then [192 + n / 64, 128 + n % 64]
  else if n < 65536 then [224 + n / 4096, 128 + n / 64 % 64, 128 + n % 64]
  else [240 + n / 262144, 128 + n / 4096 % 64, 128 + n / 64 % 64, 128 + n % 64]

def utf8Bytes (s : Text) : List Nat := s.flatMap utf8Char

/-- The stable identifier the loader computes for a raw entry:
`hashlib.md5(source_data["url"].encode()).hexdigest()[:8]`. -/
def sourceId (u : Text) : Text := (md5Hex (utf8Bytes u)).take 8

/- ### Data model (`Source` dataclass) -/

/-- The `Source` dataclass of `citations.py`, with its field defaults. -/
structure Source where
  url : Text
  title : Text
  timestamp : Text
  relevant_quotes : List Text
  credibility_score : ℚ
  source_type : Text := "unknown".data
  access_date : Text := []
deriving DecidableEq, Repr

/-- `Source.get_citation_key`:
`hashlib.md5(self.url.encode()).hexdigest()[:8]`. -/
def Source.get_citation_key (s : Source) : Text := (md5Hex (utf8Bytes s.url)).take 8

/- ### Date handling (`datetime.fromisoformat`, `datetime.strptime`,
`strftime('%B')`) as used by the reference formatter. -/

/-- The calendar fields of a Python `datetime` that the engine reads. -/
structure PyDate where
  year : Nat
  month : Nat
  day : Nat
deriving DecidableEq, Repr

def isLeapYear (y : Nat) : Bool := (y % 4 = 0 && y % 100 ≠ 0) || y % 400 = 0

def daysInMonth (y m : Nat) : Nat :=
  if m = 2 then (if isLeapYear y then 29 else 28)
  else if m = 4 || m = 6 || m = 9 || m = 11 then 30
  else 31

/-- Read exactly `k` decimal digits from the front of a text. -/
def takeDigitsN (k : Nat) (s : Text) : Option (Nat × Text) :=
  let ds := s.take k
  if ds.length = k && ds.all Char.isDigit then some (digitsVal ds, s.drop k) else none

def expectChar (c : Char) : Text → Option Text
  | x :: r => if x = c then some r else none
  | [] => none

/-- Optional fractional seconds: a dot followed by exactly 3 or 6 digits
(the `fromisoformat` grammar of the targeted Python version). -/
def parseFrac (s : Text) : Option Text :=
  match takeDigitsN 6 s with
  | some (_, r) => some r
  | none =>
    match takeDigitsN 3 s with
    | some (_, r) => some r
    | none => none

/-- `HH[:MM[:SS[.fff[fff]]]]` with the ranges `datetime` accepts;
returns the unconsumed remainder. -/
def parseTimePart (s : Text) : Option Text :=
  match takeDigitsN 2 s with
  | none => none
  | some (hh, r1) =>
    if 24 ≤ hh then none
    else
      match r1 with
      | ':' :: r2 =>
        match takeDigitsN 2 r2 with
        | none => none
        | some (mm, r3) =>
          if 60 ≤ mm then none
          else
            match r3 with
            | ':' :: r4 =>
              match takeDigitsN 2 r4 with
              | none => none
              | some (ss, r5) =>
                if 60 ≤ ss then none
                else
                  match r5 with
                  | '.' :: r6 => parseFrac r6
                  | _ => some r5
            | _ => some r3
      | _ => some r1

/-- UTC-offset tail `±HH:MM[:SS[.ffffff]]`; must consume to the end. -/
def parseOffsetPart (s : Text) : Option Unit :=
  match takeDigitsN 2 s with
  | none => none
  | some (hh, r1) =>
    if 24 ≤ hh then none
    else
      match expectChar ':' r1 with
      | none => none
      | some r2 =>
        match takeDigitsN 2 r2 with
        | none => none
        | some (mm, r3) =>
          if 60 ≤ mm then none
          else
            match r3 with
            | [] => some ()
            | ':' :: r4 =>
              match takeDigitsN 2 r4 with
              | none => none
              | some (ss, r5) =>
                if 60 ≤ ss then none
                else
                  match r5 with
                  | [] => some ()
                  | '.' :: r6 =>
                    match takeDigitsN 6 r6 with
                    | some (_, []) => some ()
                    | _ => none
                  | _ => none
            | _ => none

/-- `datetime.fromisoformat` on the grammar
`YYYY-MM-DD[*HH[:MM[:SS[.fff[fff]]]][±HH:MM[:SS[.ffffff]]]]`
(the single date-time separator may be any character); returns the
calendar date on success, `none` where Python raises `ValueError`. -/
def fromIso (s : Text) : Option PyDate := do
  let (y, r1) ← takeDigitsN 4 s
  let r2 ← expectChar '-' r1
  let (m, r3) ← takeDigitsN 2 r2
  let r4 ← expectChar '-' r3
  let (d, r5) ← takeDigitsN 2 r4
  if y < 1 || m < 1 || 12 < m || d < 1 || daysInMonth y m < d then none
  else
    match r5 with
    | [] => some ⟨y, m, d⟩
    | _ :: r6 =>
      match parseTimePart r6 with
      | none => none
      | some [] => some ⟨y, m, d⟩
      | some (c :: r7) =>
        if c = '+' || c = '-' then
          match parseOffsetPart r7 with
          | some _ => some ⟨y, m, d⟩
          | none => none
        else none

/-- A one-or-two digit field of `strptime` (`%m`: values 1 to 12). -/
def parseMonthMD : Text → Option (Nat × Text)
  | c1 :: c2 :: r =>
    if c1.isDigit && c2.isDigit then
      let v := digitVal c1 * 10 + digitVal c2
      if 1 ≤ v && v ≤ 12 then some (v, r) else none
    else if c1.isDigit && 1 ≤ digitVal c1 then some (digitVal c1, c2 :: r)
    else none
  | [c1] => if c1.isDigit && 1 ≤ digitVal c1 then some (digitVal c1, []) else none
  | [] => none

/-- A one-or-two digit field of `strptime` (`%d`: values 1 to 31). -/
def parseDayMD : Text → Option (Nat × Text)
  | c1 :: c2 :: r =>
    if c1.isDigit && c2.isDigit then
      let v := digitVal c1 * 10 + digitVal c2
      if 1 ≤ v && v ≤ 31 then some (v, r) else none
    else if c1.isDigit && 1 ≤ digitVal c1 then some (digitVal c1, c2 :: r)
    else none
  | [c1] => if c1.isDigit && 1 ≤ digitVal c1 then some (digitVal c1, []) else none
  | [] => none

/-- `datetime.strptime(s, '%Y-%m-%d')`: four-digit year, one-or-two digit
month and day, full match, calendar-validated. -/
def strptimeYmd (s : Text) : Option PyDate := do
  let (y, r1) ← takeDigitsN 4 s
  let r2 ← expectChar '-' r1
  let (m, r3) ← parseMonthMD r2
  let r4 ← expectChar '-' r3
  let (d, r5) ← parseDayMD r4
  if r5 = [] && 1 ≤ y && 1 ≤ d && d ≤ daysInMonth y m then some ⟨y, m, d⟩ else none

/-- `dt.strftime('%B')`: the English month name. -/
def monthName (m : Nat) : Text :=
  if m = 1 then "January".data
  else if m = 2 then "February".data
  else if m = 3 then "March".data
  else if m = 4 then "April".data
  else if m = 5 then "May".data
  else if m = 6 then "June".data
  else if m = 7 then "July".data
  else if m = 8 then "August".data
  else if m = 9 then "September".data
  else if m = 10 then "October".data
  else if m = 11 then "November".data
  else "December".data

/-- Python `iso.replace('Z', '+00:00')` (all occurrences). -/
def replaceAllZ (s : Text) : Text :=
  s.flatMap fun c => if c = 'Z' then "+00:00".data else [c]

/- ### Reference formatting (`_format_reference` and helpers) -/

/-- `CitationEngine._fmt_date`: format `observedAt`, falling back to the
literal `n.d.` when `fromisoformat` fails. -/
def fmt_date (iso : Text) (order : Text) : Text :=
  match fromIso (replaceAllZ iso) with
  | none => "n.d.".data
  | some dt =>
    if order = "ymd".data then
      natDigits dt.year ++ ", ".data ++ monthName dt.month ++ " ".data ++ natDigits dt.day
    else
      monthName dt.month ++ " ".data ++ natDigits dt.day ++ ", ".data ++ natDigits dt.year

/-- `CitationEngine._fmt_accessed`: the accessed-date segment, present only
when `access_date` is nonempty and parses with `fromisoformat` or with
`strptime('%Y-%m-%d')`. -/
def fmt_accessed (source : Source) (style : Text) : Option Text :=
  if source.access_date = [] then none
  else
    match (match fromIso source.access_date with
           | some d => some d
           | none => strptimeYmd source.access_date) with
    | none => none
    | some ad =>
      if style = "apa".data then
        some ("Accessed ".data ++ monthName ad.month ++ " ".data ++ natDigits ad.day ++
          ", ".data ++ natDigits ad.year)
      else if style = "chicago".data then
        some ("Accessed ".data ++ monthName ad.month ++ " ".data ++ natDigits ad.day ++
          ", ".data ++ natDigits ad.year)
      else none

/-- `CitationEngine._site_name`: `url.split('/')[2]`, `None` when the split
has fewer than three pieces (Python `IndexError` caught). -/
def site_name (source : Source) : Option Text :=
  match (splitOnChar '/' source.url).drop 2 with
  | h :: _ => some h
  | [] => none

/-- Python `" ".join(p for p in parts if p)`: drop the `None` and empty
entries, join the rest with single spaces. -/
def joinParts (parts : List (Option Text)) : Text :=
  List.intercalate " ".data
    (parts.filterMap fun p =>
      match p with
      | some q => if q = [] then none else some q
      | none => none)

/-- `CitationEngine._format_reference_apa`. -/
def format_reference_apa (source : Source) (citation_num : Nat) : Text :=
  let date := fmt_date source.timestamp "ymd".data
  let site := site_name source
  let accessed := fmt_accessed source "apa".data
  joinParts
    [some ("[".data ++ natDigits citation_num ++ "] ".data ++ source.title ++
       ". (".data ++ date ++ ").".data),
     (match site with
      | some s => if s = [] then none else some (s ++ ".".data)
      | none => none),
     some (source.url ++ ".".data),
     accessed]

/-- `CitationEngine._format_reference_chicago`. -/
def format_reference_chicago (source : Source) (citation_num : Nat) : Text :=
  let date := fmt_date source.timestamp "mdy".data
  let site := site_name source
  let accessed := fmt_accessed source "chicago".data
  joinParts
    [some ("[".data ++ natDigits citation_num ++ "] ".data ++ source.title ++ ".".data),
     (match site with
      | some s => if s = [] then none else some (s ++ ".".data)
      | none => none),
     some (date ++ ".".data),
     some (source.url ++ ".".data),
     accessed]

/-- `CitationEngine._format_generic_reference`. -/
def format_generic_reference (source : Source) (citation_num : Nat) : Text :=
  let year :=
    match fromIso (replaceAllZ source.timestamp) with
    | some dt => natDigits dt.year
    | none => "n.d.".data
  "[".data ++ natDigits citation_num ++ "] ".data ++ source.title ++ " (".data ++ year ++
    "). ".data ++ source.url

/-- `CitationEngine._format_reference`: dispatch on the configured style. -/
def format_reference (style : Text) (source : Source) (citation_num : Nat) : Text :=
  if style = "apa".data then format_reference_apa source citation_num
  else if style = "chicago".data then format_reference_chicago source citation_num
  else format_generic_reference source citation_num

/-- Style resolution in `CitationEngine.__init__`: the optional `style`
argument, else the `CITATION_STYLE` environment variable stripped and
lower-cased, else `apa`; unrecognized values fall back to `apa`.
`env` is the variable's value, `[]` when unset (`os.getenv` default). -/
def resolveStyle (style : Option Text) (env : Text) : Text :=
  let env_style := pyLower (pyStrip env)
  let chosen :=
    match style with
    | some st => if st = [] then (if env_style = [] then "apa".data else env_style) else st
    | none => if env_style = [] then "apa".data else env_style
  let s := pyLower chosen
  if s = "apa".data || s = "chicago".data || s = "generic".data then s else "apa".data

/- ### Exact-match citation placement (`apply_citations`) -/

/-- Stable insertion for descending credibility order: Python
`sorted(filtered_sources.items(), key=lambda x: x[1].credibility_score,
reverse=True)` is a stable sort, so equal credibilities keep the map's
insertion order and there is no further tiebreak. -/
def insertDesc (x : Text × Source) : List (Text × Source) → List (Text × Source)
  | [] => [x]
  | y :: ys =>
    if x.2.credibility_score < y.2.credibility_score then y :: insertDesc x ys
    else x :: y :: ys

def sortByCredDesc : List (Text × Source) → List (Text × Source)
  | [] => []
  | x :: xs => insertDesc x (sortByCredDesc xs)

/-- Stable insertion for ascending citation number:
`sorted(cited_sources.items(), key=lambda x: x[1])`. -/
def insertAscNum (x : Text × Nat) : List (Text × Nat) → List (Text × Nat)
  | [] => [x]
  | y :: ys => if y.2 < x.2 then y :: insertAscNum x ys else x :: y :: ys

def sortByNumAsc : List (Text × Nat) → List (Text × Nat)
  | [] => []
  | x :: xs => insertAscNum x (sortByNumAsc xs)

/-- The mutable loop state of `apply_citations`: the working text,
the `cited_sources` mapping in insertion order, and `citation_counter`. -/
structure CiteState where
  text : Text
  cited : List (Text × Nat)
  counter : Nat
deriving DecidableEq, Repr

/-- The inner quote loop of `apply_citations` for one source: skip quotes
whose stripped length is below 10; at the first quote that occurs verbatim
in the working text (for a not-yet-cited source id), insert the marker
text after the first occurrence, record the citation number, and stop
scanning this source's quotes. -/
def citeQuotes (source_id : Text) (st : CiteState) : List Text → CiteState
  | [] => st
  | quote :: rest =>
    if (pyStrip quote).length < 10 then citeQuotes source_id st rest
    else if isSubstring quote st.text && st.cited.all (fun p => p.1 != source_id) then
      { text := replaceFirst quote
          (quote ++ " [".data ++ natDigits st.counter ++ "]".data) st.text
        cited := st.cited ++ [(source_id, st.counter)]
        counter := st.counter + 1 }
    else citeQuotes source_id st rest

/-- The outer source loop of `apply_citations` over the sorted sources. -/
def citePass (sorted_sources : List (Text × Source)) (text : Text) : CiteState :=
  sorted_sources.foldl (fun st e => citeQuotes e.1 st e.2.relevant_quotes) ⟨text, [], 1⟩

/-- `CitationEngine._generate_references`: one formatted line per cited
source in ascending citation-number order, joined by newlines.  The
`none` lookup branch is unreachable (Python would raise `KeyError`):
cited ids always come from the given source map. -/
def generate_references (style : Text) (sources : List (Text × Source))
    (cited_sources : List (Text × Nat)) : Text :=
  List.intercalate "\n".data
    ((sortByNumAsc cited_sources).map fun p =>
      match sources.lookup p.1 with
      | some s => format_reference style s p.2
      | none => [])

/-- `CitationEngine.apply_citations` for an already-loaded source map
(a Python dict in insertion order, modeled as an association list). -/
def apply_citations (style : Text) (sources : List (Text × Source)) (text : Text)
    (min_credibility : ℚ) : Text :=
  let filtered := sources.filter fun e => min_credibility ≤ e.2.credibility_score
  if filtered.isEmpty then text
  else
    let st := citePass (sortByCredDesc filtered) text
    if st.cited.isEmpty then st.text
    else st.text ++ "\n\n## References\n\n".data ++ generate_references style filtered st.cited

/- ### Citation validation (`validate_citations`) -/

/-- The validation report (`ValidationResult` dataclass). -/
structure ValidationResult where
  total_citations : Nat
  total_sources : Nat
  coverage_percentage : ℚ
  errors : List Text
  warnings : List Text
deriving DecidableEq, Repr

/-- The warnings for references never matched by a citation
(`unused_refs = reference_numbers - citation_numbers`); Python iterates
the set difference in unspecified order, modeled in first-occurrence
order. -/
def deadRefWarnings (text : Text) : List Text :=
  let citation_numbers := ((findMarkers text).map digitsVal).dedup
  let reference_numbers := ((lineStartMarkers text).map digitsVal).dedup
  (reference_numbers.filter fun n => !(citation_numbers.contains n)).map fun n =>
    "Reference [".data ++ natDigits n ++ "] is not cited in text".data

/-- The duplicate-marker warnings: raw captured strings whose occurrence
count exceeds one (Python compares the raw `findall` strings). -/
def dupWarnings (text : Text) : List Text :=
  let citations := findMarkers text
  if citations.length ≠ citations.dedup.length then
    (citations.dedup.filter fun c => 1 < citations.count c).map fun c =>
      "Citation [".data ++ c ++ "] appears multiple times".data
  else []

/-- `CitationEngine.validate_citations`. -/
def validate_citations (text : Text) : ValidationResult :=
  let citations := findMarkers text
  let citation_numbers := (citations.map digitsVal).dedup
  let references := lineStartMarkers text
  let reference_numbers := (references.map digitsVal).dedup
  let missing_refs := citation_numbers.filter fun n => !(reference_numbers.contains n)
  let errors := missing_refs.map fun n =>
    "Citation [".data ++ natDigits n ++ "] has no corresponding reference".data
  let total_sentences := (splitPieces text).length
  let sentences_with_citations := countCovered text
  let coverage : ℚ :=
    if 0 < total_sentences then
      (sentences_with_citations : ℚ) / (total_sentences : ℚ) * 100
    else 0
  { total_citations := citation_numbers.length
    total_sources := reference_numbers.length
    coverage_percentage := coverage
    errors := errors
    warnings := deadRefWarnings text ++ dupWarnings text }

/- ### Source loading (`extract_all_sources`) -/

/-- A raw source entry of a findings file: every field may be absent
(Python `KeyError` on required fields, `.get` defaults on the rest). -/
structure RawSource where
  url : Option Text
  title : Option Text
  timestamp : Option Text
  relevant_quotes : Option (List Text)
  credibility_score : Option ℚ
  source_type : Option Text
  access_date : Option Text
deriving DecidableEq, Repr

/-- One findings batch: `none` models a file whose JSON fails to parse
(`json.JSONDecodeError`), otherwise the entries of
`data.get("sources", [])`. -/
abbrev Batch := Option (List RawSource)

/-- Quote merging on duplicate source ids:
`list(set(existing) | set(new))`.  A Python set iterates in unspecified
order; modeled as deduplication in first-seen order. -/
def mergeQuotes (existing new : List Text) : List Text := (existing ++ new).dedup

def updateQuotes (sources : List (Text × Source)) (sid : Text) (qs : List Text) :
    List (Text × Source) :=
  sources.map fun p =>
    if p.1 = sid then (p.1, { p.2 with relevant_quotes := mergeQuotes p.2.relevant_quotes qs })
    else p

/-- One loop iteration of `extract_all_sources` over a source entry;
`none` models an uncaught `KeyError` propagating out of the entry
(missing `url`, or missing `title`/`timestamp` for a new id), which
aborts the rest of this batch. -/
def processEntry (sources : List (Text × Source)) (e : RawSource) :
    Option (List (Text × Source)) :=
  match e.url with
  | none => none
  | some u =>
    let sid := sourceId u
    if (sources.lookup sid).isSome then
      some (updateQuotes sources sid (e.relevant_quotes.getD []))
    else
      match e.title, e.timestamp with
      | some ti, some ts =>
        some (sources ++ [(sid,
          { url := u, title := ti, timestamp := ts,
            relevant_quotes := e.relevant_quotes.getD [],
            credibility_score := e.credibility_score.getD (mkRat 1 2),
            source_type := e.source_type.getD ("unknown".data),
            access_date := e.access_date.getD [] })])
      | _, _ => none

/-- The per-batch loop body: the `try` block covers the whole entry loop,
so an entry failure keeps the entries already added, emits a warning and
skips the remainder of that batch only. -/
def processBatchEntries (sources : List (Text × Source)) :
    List RawSource → List (Text × Source) × Bool
  | [] => (sources, false)
  | e :: rest =>
    match processEntry sources e with
    | some s2 => processBatchEntries s2 rest
    | none => (sources, true)

def processBatch (sources : List (Text × Source)) (b : Batch) :
    List (Text × Source) × Bool :=
  match b with
  | none => (sources, true)
  | some entries => processBatchEntries sources entries

/-- `CitationEngine.extract_all_sources` over a list of findings batches:
returns the deduplicated source map (insertion-ordered, as a Python dict)
and the per-batch warning flags; a failed batch never aborts the load. -/
def extract_all_sources (batches : List Batch) : List (Text × Source) × List Bool :=
  batches.foldl
    (fun acc b =>
      match processBatch acc.1 b with
      | (s2, w) => (s2, acc.2 ++ [w]))
    ([], [])

/- ### Marker occurrences: the shape captured by the regex `\[(\d+)\]` -/

/-- `ds` is the capture of an occurrence of the marker pattern in `t`:
an open bracket, one or more digits, a close bracket, contiguous. -/
def MarkerOcc (t : Text) (ds : Text) : Prop :=
  ∃ a b, t = a ++ '[' :: (ds ++ ']' :: b) ∧ ds ≠ [] ∧ ∀ c ∈ ds, c.isDigit

/-- The loop invariant of the citation pass: every marker in the working
text is a previously assigned citation number, the assigned numbers are
exactly 1..counter-1 in order, and every cited identifier comes from the
traversed source list. -/
def CiteInv (L : List Text) (st : CiteState) : Prop :=
  (∀ ds, MarkerOcc st.text ds → ∃ k, 1 ≤ k ∧ k < st.counter ∧ ds = natDigits k) ∧
  st.cited.map Prod.snd = List.range' 1 (st.counter - 1) ∧
  1 ≤ st.counter ∧
  ∀ p ∈ st.cited, p.1 ∈ L

/- ### Concrete inputs used by witnesses and counterexamples -/

/-- A text whose first split piece contains the only inline marker. -/
def c4Text : Text := "see [1] foo. bar".data

/-- A short text with one proper sentence and a marker. -/
def c5Text : Text := "A claim [1]. More text.".data

/-- Two sources with equal credibility for the tiebreak counterexample. -/
def c2SourceA : Source where
  url := "https://a.example/x".data
  title := "Alpha".data
  timestamp := "2024-01-01T00:00:00Z".data
  relevant_quotes := ["alpha quote text one".data]
  credibility_score := mkRat 7 10

def c2SourceB : Source where
  url := "https://b.example/y".data
  title := "Beta".data
  timestamp := "2024-01-01T00:00:00Z".data
  relevant_quotes := ["beta quote text two".data]
  credibility_score := mkRat 7 10

def c2Text : Text := "Start alpha quote text one and beta quote text two end.".data

/-- The same source map in two insertion orders (`aaa` sorts before `bbb`
as an identifier). -/
def c2MapFirstA : List (Text × Source) := [("aaa".data, c2SourceA), ("bbb".data, c2SourceB)]

def c2MapFirstB : List (Text × Source) := [("bbb".data, c2SourceB), ("aaa".data, c2SourceA)]

/-- A body with no inline citation followed by a reference-style line whose
number is never cited in the body. -/
def c6Text : Text := "no citations here\n[1] Dead Reference".data

/-- A source and a raw entry sharing one locator, for the identifier
round trip. -/
def c10Source : Source where
  url := "https://example.com/paper".data
  title := "Paper Title".data
  timestamp := "2024-01-15T10:30:00Z".data
  relevant_quotes := []
  credibility_score := mkRat 1 2

def c10Entry : RawSource where
  url := some ("https://example.com/paper".data)
  title := some ("Paper Title".data)
  timestamp := some ("2024-01-15T10:30:00Z".data)
  relevant_quotes := none
  credibility_score := none
  source_type := none
  access_date := none

/-- A raw entry carrying locator and title plus optional fields, but no
`timestamp`. -/
def c7NoTimestamp : RawSource where
  url := some ("https://a.example/one".data)
  title := some ("A Title".data)
  timestamp := none
  relevant_quotes := some ["some long quote text".data]
  credibility_score := some (mkRat 8 10)
  source_type := none
  access_date := none

/-- A raw entry carrying the three fields the loader actually requires and
nothing else. -/
def c7Complete : RawSource where
  url := some ("https://b.example/two".data)
  title := some ("B Title".data)
  timestamp := some ("2024-01-01T00:00:00Z".data)
  relevant_quotes := none
  credibility_score := none
  source_type := none
  access_date := none

/-- A fully populated source record used to compare rendered references. -/
def c9Source : Source where
  url := "https://example.com/paper".data
  title := "Paper Title".data
  timestamp := "2024-01-15T10:30:00Z".data
  relevant_quotes := ["Exact supporting quote for claim".data]
  credibility_score := mkRat 95 100
  source_type := "peer_reviewed".data
  access_date := "2024-01-20".data

/-- A source whose timestamp and access date fail every supported parse. -/
def c8BadAccess : Source where
  url := "https://example.com/x".data
  title := "X".data
  timestamp := "not-a-date".data
  relevant_quotes := []
  credibility_score := mkRat 1 2
  access_date := "January 2024".data

/-- C3 counterexample text: three overlapping ten-character blocks. -/
def c3Text : Text := "aaaaaaaaaa bbbbbbbbbb cccccccccc".data

def c3SrcHi : Source where
  url := "https://h.example".data
  title := "H".data
  timestamp := "2024-01-01T00:00:00Z".data
  relevant_quotes := ["aaaaaaaaaa bbbbbbbbbb".data]
  credibility_score := mkRat 95 100

def c3SrcMid : Source where
  url := "https://m.example".data
  title := "M".data
  timestamp := "2024-01-01T00:00:00Z".data
  relevant_quotes := ["bbbbbbbbbb cccccccccc".data]
  credibility_score := mkRat 9 10

def c3SrcLo : Source where
  url := "https://l.example".data
  title := "L".data
  timestamp := "2024-01-01T00:00:00Z".data
  relevant_quotes := ["aaaaaaaaaa".data]
  credibility_score := mkRat 1 2

/-- C3 witness text: the three quotes are disjoint, in reverse order of
their sources' credibilities. -/
def c3wText : Text :=
  "cccccccccc dddddddddd. aaaaaaaaaa bbbbbbbbbb. eeeeeeeeee ffffffffff.".data

def c3wSrcA : Source where
  url := "https://a.example".data
  title := "A".data
  timestamp := "2024-01-01T00:00:00Z".data
  relevant_quotes := ["cccccccccc dddddddddd".data]
  credibility_score := mkRat 9 10

def c3wSrcB : Source where
  url := "https://b.example".data
  title := "B".data
  timestamp := "2024-01-01T00:00:00Z".data
  relevant_quotes := ["aaaaaaaaaa bbbbbbbbbb".data]
  credibility_score := mkRat 1 2

def c3wSrcC : Source where
  url := "https://c.example".data
  title := "C".data
  timestamp := "2024-01-01T00:00:00Z".data
  relevant_quotes := ["eeeeeeeeee ffffffffff".data]
  credibility_score := mkRat 95 100

/-- C1 counterexample text: carries a stray bracketed-integer marker. -/
def c1Text : Text := "stray marker [7] here. good quote here ok.".data

def c1Src : Source where
  url := "https://x.example/p".data
  title := "P".data
  timestamp := "2024-01-15T10:30:00Z".data
  relevant_quotes := ["good quote here ok".data]
  credibility_score := mkRat 9 10

/-- C1 witness text: marker-free, containing the spec scenario's quote. -/
def c1wText : Text :=
  "We observe that Exact supporting quote for claim holds in practice.".data

/- ### Proof development -/

theorem digitChar_isDigit {d : Nat} (h : d < 10) : (Nat.digitChar d).isDigit := by
  interval_cases d <;> decide

theorem digitVal_digitChar {d : Nat} (h : d < 10) : digitVal (Nat.digitChar d) = d := by
  interval_cases d <;> decide

theorem natDigitsAux_eq_append :
    ∀ n fuel acc, n < fuel → natDigitsAux fuel n acc = natDigits n ++ acc := by
  intro n
  induction n using Nat.strong_induction_on with
  | _ n ih =>
    intro fuel acc hf
    match fuel with
    | fuel2 + 1 =>
      rw [natDigitsAux]
      by_cases h : n < 10
      · rw [if_pos h, natDigits, natDigitsAux, if_pos h]
        simp
      · rw [if_neg h]
        have hdiv : n / 10 < n := Nat.div_lt_self (by omega) (by omega)
        rw [ih (n / 10) hdiv fuel2 (Nat.digitChar (n % 10) :: acc) (by omega)]
        conv_rhs => rw [natDigits, natDigitsAux, if_neg h]
        rw [ih (n / 10) hdiv n [Nat.digitChar (n % 10)] hdiv]
        simp

theorem natDigits_ne_nil (n : Nat) : natDigits n ≠ [] := by
  rw [natDigits, natDigitsAux]
  by_cases h : n < 10
  · simp [h]
  · rw [if_neg h, natDigitsAux_eq_append (n / 10) n (
      [Nat.digitChar (n % 10)]) (Nat.div_lt_self (by omega) (by omega))]
    simp

theorem natDigits_all_digit (n : Nat) : ∀ c ∈ natDigits n, c.isDigit := by
  induction n using Nat.strong_induction_on with
  | _ n ih =>
    intro c hc
    rw [natDigits, natDigitsAux] at hc
    by_cases h : n < 10
    · rw [if_pos h] at hc
      simp at hc
      exact hc ▸ digitChar_isDigit h
    · rw [if_neg h, natDigitsAux_eq_append (n / 10) n (
        [Nat.digitChar (n % 10)]) (Nat.div_lt_self (by omega) (by omega))] at hc
      rcases List.mem_append.mp hc with h1 | h1
      · exact ih (n / 10) (Nat.div_lt_self (by omega) (by omega)) c h1
      · simp at h1
        exact h1 ▸ digitChar_isDigit (Nat.mod_lt n (by omega))

theorem digitsVal_append_singleton (ds : Text) (c : Char) :
    digitsVal (ds ++ [c]) = 10 * digitsVal ds + digitVal c := by
  simp [digitsVal, List.foldl_append]

theorem digitsVal_natDigits (n : Nat) : digitsVal (natDigits n) = n := by
  induction n using Nat.strong_induction_on with
  | _ n ih =>
    rw [natDigits, natDigitsAux]
    by_cases h : n < 10
    · rw [if_pos h]
      simp [digitsVal, digitVal_digitChar h]
    · rw [if_neg h, natDigitsAux_eq_append (n / 10) n (
        [Nat.digitChar (n % 10)]) (Nat.div_lt_self (by omega) (by omega))]
      rw [digitsVal_append_singleton, ih (n / 10) (Nat.div_lt_self (by omega) (by omega)),
        digitVal_digitChar (Nat.mod_lt n (by omega))]
      omega

theorem digit_run_eq {ds1 ds2 b1 b2 : Text}
    (h1 : ∀ c ∈ ds1, c.isDigit) (h2 : ∀ c ∈ ds2, c.isDigit)
    (he : ds1 ++ ']' :: b1 = ds2 ++ ']' :: b2) : ds1 = ds2 ∧ b1 = b2 := by
  induction ds1 generalizing ds2 with
  | nil =>
    cases ds2 with
    | nil => simp_all
    | cons c cs =>
      simp at he
      have := h2 c (by simp)
      rw [← he.1] at this
      simp at this
  | cons c cs ih =>
    cases ds2 with
    | nil =>
      simp at he
      have := h1 c (by simp)
      rw [he.1] at this
      simp at this
    | cons d es =>
      simp at he
      obtain ⟨rfl, he2⟩ := he
      have := ih (fun x hx => h1 x (by simp [hx])) (fun x hx => h2 x (by simp [hx])) he2
      simp_all

theorem run_takeWhile {p : Char → Bool} {ds rest : Text} {x : Char}
    (hx : p x = false) (h : ∀ c ∈ ds, p c) :
    (ds ++ x :: rest).takeWhile p = ds ∧ (ds ++ x :: rest).dropWhile p = x :: rest := by
  induction ds with
  | nil => simp [List.takeWhile_cons, List.dropWhile_cons, hx]
  | cons c cs ih =>
    have hc : p c := h c (by simp)
    have h2 := ih (fun d hd => h d (by simp [hd]))
    simp [List.takeWhile_cons, List.dropWhile_cons, hc, h2]

theorem markerOcc_mono_left {x y ds : Text} (h : MarkerOcc x ds) : MarkerOcc (x ++ y) ds := by
  obtain ⟨a, b, rfl, hne, hd⟩ := h
  exact ⟨a, b ++ y, by simp, hne, hd⟩

theorem markerOcc_mono_right {x y ds : Text} (h : MarkerOcc y ds) : MarkerOcc (x ++ y) ds := by
  obtain ⟨a, b, rfl, hne, hd⟩ := h
  exact ⟨x ++ a, b, by simp, hne, hd⟩

theorem markerOcc_cons_iff {c : Char} {w ds : Text} (hc : c ≠ '[') :
    MarkerOcc (c :: w) ds ↔ MarkerOcc w ds := by
  constructor
  · rintro ⟨a, b, he, hne, hd⟩
    cases a with
    | nil =>
      simp at he
      exact absurd he.1 hc
    | cons a1 a2 =>
      simp at he
      exact ⟨a2, b, he.2, hne, hd⟩
  · intro h
    exact @markerOcc_mono_right [c] w ds h

/-- Decomposing a marker occurrence in a concatenation: it lies in the left
part, in the right part, or straddles the seam with the open bracket and a
digit prefix on the left. -/
theorem markerOcc_append {x y ds : Text} (h : MarkerOcc (x ++ y) ds) :
    MarkerOcc x ds ∨ MarkerOcc y ds ∨
      ∃ x1 ds1 ds2 y2, x = x1 ++ '[' :: ds1 ∧ y = ds2 ++ ']' :: y2 ∧ ds = ds1 ++ ds2 := by
  induction x with
  | nil => exact Or.inr (Or.inl (by simpa using h))
  | cons c x2 ih =>
    obtain ⟨a, b, he, hne, hd⟩ := h
    cases a with
    | nil =>
      simp at he
      obtain ⟨rfl, he2⟩ := he
      rcases List.append_eq_append_iff.mp he2 with ⟨e, he3, he4⟩ | ⟨e, he3, he4⟩
      · exact Or.inr (Or.inr ⟨[], x2, e, b, by simp, he4, he3⟩)
      · cases e with
        | nil =>
          simp at he3 he4
          exact Or.inr (Or.inr ⟨[], x2, [], b, by simp, by simp [he4.symm], by simp [he3]⟩)
        | cons e1 e2 =>
          simp at he4
          obtain ⟨rfl, rfl⟩ := he4
          exact Or.inl ⟨[], e2, by simp [he3], hne, hd⟩
    | cons a1 a2 =>
      simp at he
      obtain ⟨rfl, he2⟩ := he
      rcases ih ⟨a2, b, he2, hne, hd⟩ with h1 | h1 | ⟨x1, ds1, ds2, y2, hx, hy, hds⟩
      · exact Or.inl (@markerOcc_mono_right [c] x2 ds h1)
      · exact Or.inr (Or.inl h1)
      · exact Or.inr (Or.inr ⟨c :: x1, ds1, ds2, y2, by simp [hx], hy, hds⟩)

theorem markerOcc_lbrack_mem {t ds : Text} (h : MarkerOcc t ds) : '[' ∈ t := by
  obtain ⟨a, b, rfl, _, _⟩ := h
  simp

/-- A seam whose right side starts with a character that is neither a digit
nor a close bracket cannot be straddled by a marker. -/
theorem markerOcc_break {x : Text} {c : Char} {y2 ds : Text}
    (hdig : c.isDigit = false) (hb : c ≠ ']')
    (h : MarkerOcc (x ++ c :: y2) ds) : MarkerOcc x ds ∨ MarkerOcc (c :: y2) ds := by
  rcases markerOcc_append h with h1 | h1 | ⟨x1, ds1, ds2, w2, hx, hy, hds⟩
  · exact Or.inl h1
  · exact Or.inr h1
  · obtain ⟨a, b, he, hne, hd⟩ := h
    cases ds2 with
    | nil =>
      simp at hy
      exact absurd hy.1 hb
    | cons d1 d2 =>
      simp at hy
      have : d1.isDigit := hd d1 (by simp [hds, hy.1])
      rw [← hy.1] at this
      simp [hdig] at this

/-- A seam whose left side contains no open bracket pushes any marker
occurrence entirely to the right side. -/
theorem markerOcc_of_no_lbrack {x y ds : Text} (hx : '[' ∉ x)
    (h : MarkerOcc (x ++ y) ds) : MarkerOcc y ds := by
  rcases markerOcc_append h with h1 | h1 | ⟨x1, ds1, ds2, y2, hxe, hy, hds⟩
  · exact absurd (markerOcc_lbrack_mem h1) hx
  · exact h1
  · rw [hxe] at hx
    simp at hx

/-- A text with no open bracket carries no marker occurrence at all. -/
theorem not_markerOcc_of_no_lbrack {t ds : Text} (ht : '[' ∉ t) : ¬ MarkerOcc t ds :=
  fun h => absurd (markerOcc_lbrack_mem h) ht

/-- Markers of a text that begins with a literal marker: the occurrence is
that leading marker or lies in the remainder. -/
theorem markerOcc_head {ds b es : Text} (hds : ∀ c ∈ ds, c.isDigit)
    (h : MarkerOcc ('[' :: (ds ++ ']' :: b)) es) : es = ds ∨ MarkerOcc b es := by
  obtain ⟨a, b2, he, hne, hd⟩ := h
  cases a with
  | nil =>
    simp at he
    exact Or.inl (digit_run_eq hd hds (by rw [he])).1
  | cons a1 a2 =>
    simp at he
    obtain ⟨rfl, he2⟩ := he
    rcases List.append_eq_append_iff.mp he2 with ⟨e, he3, he4⟩ | ⟨e, he3, he4⟩
    · cases e with
      | nil => simp at he4
      | cons e1 e2 =>
        simp at he4
        obtain ⟨he5, he6⟩ := he4
        subst he6
        exact Or.inr ⟨e2, b2, rfl, hne, hd⟩
    · cases e with
      | nil => simp at he4
      | cons e1 e2 =>
        simp at he4
        obtain ⟨he5, he6⟩ := he4
        have hmem : e1.isDigit := hds e1 (by rw [he3] ; simp)
        rw [← he5] at hmem
        simp at hmem

theorem findMarkers_nil : findMarkers [] = [] := rfl

theorem findMarkers_cons_not_lb {c : Char} {rest : Text} (hc : c ≠ '[') :
    findMarkers (c :: rest) = findMarkers rest := by
  rw [findMarkers]
  simp [hc]

theorem findMarkers_skip_no_lb {u : Text} (v : Text) (hu : '[' ∉ u) :
    findMarkers (u ++ v) = findMarkers v := by
  induction u with
  | nil => rfl
  | cons c cs ih =>
    have hc : c ≠ '[' := by
      intro hx
      exact hu (by simp [hx])
    rw [List.cons_append, findMarkers_cons_not_lb hc]
    exact ih (fun hx => hu (by simp [hx]))

theorem mem_findMarkers_cons {c : Char} {rest ds : Text} (h : ds ∈ findMarkers rest) :
    ds ∈ findMarkers (c :: rest) := by
  rw [findMarkers]
  by_cases hc : c = '['
  · rw [if_pos hc]
    split
    · split
      · exact h
      · exact List.mem_cons_of_mem _ h
    · exact h
  · rw [if_neg hc]
    exact h

theorem findMarkers_lb_match {ds r2 : Text} (hne : ds ≠ []) (hdig : ∀ c ∈ ds, c.isDigit) :
    findMarkers ('[' :: (ds ++ ']' :: r2)) = ds :: findMarkers r2 := by
  have hrun := @run_takeWhile Char.isDigit ds r2 ']' (by decide) hdig
  have hskip : findMarkers (ds ++ ']' :: r2) = findMarkers r2 := by
    have : ds ++ ']' :: r2 = (ds ++ [']']) ++ r2 := by simp
    rw [this, findMarkers_skip_no_lb r2]
    intro hx
    rcases List.mem_append.mp hx with h1 | h1
    · have := hdig _ h1
      simp at this
    · simp at h1
  rw [findMarkers]
  rw [if_pos rfl]
  split
  · rename_i r2b heq
    rw [hrun.1, hskip]
    rw [if_neg]
    simp [hne]
  · rename_i heq
    exact (heq r2 hrun.2).elim

theorem findMarkers_lb_nomatch {rest : Text}
    (h : ∀ r2, rest.dropWhile Char.isDigit = ']' :: r2 →
      (rest.takeWhile Char.isDigit).isEmpty) :
    findMarkers ('[' :: rest) = findMarkers rest := by
  rw [findMarkers]
  rw [if_pos rfl]
  split
  · rename_i r2b heq
    rw [h r2b heq]
    simp
  · rfl

theorem not_markerOcc_nil {ds : Text} : ¬ MarkerOcc [] ds := by
  rintro ⟨a, b, h, _, _⟩
  simp at h

theorem markerOcc_of_mem_findMarkers {t ds : Text} (h : ds ∈ findMarkers t) :
    MarkerOcc t ds := by
  induction t with
  | nil => simp [findMarkers_nil] at h
  | cons c rest ih =>
    by_cases hc : c = '['
    · subst hc
      rw [findMarkers] at h
      rw [if_pos rfl] at h
      have hmono : ds ∈ findMarkers rest → MarkerOcc ('[' :: rest) ds := fun h2 =>
        @markerOcc_mono_right ['['] rest ds (ih h2)
      rcases hsplit : rest.dropWhile Char.isDigit with _ | ⟨x, r2⟩
      · rw [hsplit] at h
        exact hmono h
      · rw [hsplit] at h
        by_cases hx : x = ']'
        · subst hx
          simp only at h
          by_cases hemp : (rest.takeWhile Char.isDigit).isEmpty
          · rw [if_pos hemp] at h
            exact hmono h
          · rw [if_neg hemp] at h
            rcases List.mem_cons.mp h with rfl | h2
            · have htw : ∀ c2 ∈ rest.takeWhile Char.isDigit, c2.isDigit :=
                fun c2 hc2 => List.mem_takeWhile_imp hc2
              have hrest : rest = rest.takeWhile Char.isDigit ++ ']' :: r2 := by
                conv_lhs => rw [← List.takeWhile_append_dropWhile Char.isDigit rest]
                rw [hsplit]
              refine ⟨[], r2, ?_, ?_, htw⟩
              · rw [← hrest]
                simp
              · intro hx2
                rw [hx2] at hemp
                simp at hemp
            · exact hmono h2
        · split at h
          · rename_i r2c heq2
            injection heq2 with h1 h2
            exact absurd h1 hx
          · exact hmono h
    · rw [findMarkers_cons_not_lb hc] at h
      exact @markerOcc_mono_right [c] rest ds (ih h)

theorem mem_findMarkers_of_markerOcc {t ds : Text} (h : MarkerOcc t ds) :
    ds ∈ findMarkers t := by
  induction t with
  | nil => exact absurd h not_markerOcc_nil
  | cons c rest ih =>
    obtain ⟨a, b, he, hne, hd⟩ := h
    cases a with
    | nil =>
      simp at he
      obtain ⟨rfl, rfl⟩ := he
      rw [findMarkers_lb_match hne hd]
      simp
    | cons a1 a2 =>
      simp at he
      obtain ⟨rfl, he2⟩ := he
      exact mem_findMarkers_cons (ih ⟨a2, b, he2, hne, hd⟩)

theorem mem_findMarkers_iff {t ds : Text} : ds ∈ findMarkers t ↔ MarkerOcc t ds :=
  ⟨markerOcc_of_mem_findMarkers, mem_findMarkers_of_markerOcc⟩

theorem takeWhile_append_all {p : Char → Bool} {u : Text} (v : Text)
    (h : ∀ c ∈ u, p c) : (u ++ v).takeWhile p = u ++ v.takeWhile p := by
  induction u with
  | nil => simp
  | cons c cs ih =>
    have hc : p c := h c (by simp)
    simp only [List.cons_append, List.takeWhile_cons, hc, if_true]
    rw [ih (fun d hd => h d (by simp [hd]))]

theorem splitOnChar_ne_nil (sep : Char) (t : Text) : splitOnChar sep t ≠ [] := by
  cases t with
  | nil => simp [splitOnChar]
  | cons c rest =>
    rw [splitOnChar]
    by_cases hc : c = sep
    · simp [hc]
    · rw [if_neg hc]
      split <;> simp

theorem splitOnChar_head (sep : Char) (t : Text) :
    ∃ ls, splitOnChar sep t = (t.takeWhile fun c => c != sep) :: ls := by
  induction t with
  | nil => exact ⟨[], rfl⟩
  | cons c rest ih =>
    rw [splitOnChar]
    by_cases hc : c = sep
    · subst hc
      simp [List.takeWhile_cons]
    · rw [if_neg hc]
      obtain ⟨ls, hls⟩ := ih
      rw [hls]
      refine ⟨ls, ?_⟩
      simp [List.takeWhile_cons, hc]

theorem splitOnChar_mem_infix {sep : Char} {t l : Text} (h : l ∈ splitOnChar sep t) :
    ∃ a b, t = a ++ l ++ b := by
  induction t generalizing l with
  | nil =>
    simp [splitOnChar] at h
    exact ⟨[], [], by simp [h]⟩
  | cons c rest ih =>
    rw [splitOnChar] at h
    by_cases hc : c = sep
    · rw [if_pos hc] at h
      rcases List.mem_cons.mp h with rfl | h2
      · exact ⟨[], c :: rest, by simp⟩
      · obtain ⟨a, b, hab⟩ := ih h2
        exact ⟨c :: a, b, by simp [hab]⟩
    · rw [if_neg hc] at h
      rcases hsp : splitOnChar sep rest with _ | ⟨l0, ls⟩
      · exact absurd hsp (splitOnChar_ne_nil sep rest)
      · rw [hsp] at h
        rcases List.mem_cons.mp h with rfl | h2
        · obtain ⟨ls2, hh⟩ := splitOnChar_head sep rest
          rw [hsp] at hh
          have hl0 : l0 = rest.takeWhile fun c => c != sep := (List.cons.injEq .. ▸ hh).1
          refine ⟨[], rest.dropWhile fun c => c != sep, ?_⟩
          rw [hl0]
          simp [List.takeWhile_append_dropWhile]
        · obtain ⟨a, b, hab⟩ := ih (by rw [hsp] ; exact List.mem_cons_of_mem l0 h2)
          exact ⟨c :: a, b, by simp [hab]⟩

/-- The piece of a split that starts right after a separator occurrence:
used to recognize reference lines after a newline. -/
theorem takeWhile_mem_splitOnChar_tail (sep : Char) (a s : Text) :
    (s.takeWhile fun c => c != sep) ∈ (splitOnChar sep (a ++ sep :: s)).tail := by
  induction a with
  | nil =>
    rw [List.nil_append, splitOnChar, if_pos rfl]
    obtain ⟨ls, hls⟩ := splitOnChar_head sep s
    rw [hls]
    simp
  | cons c a2 ih =>
    rw [List.cons_append, splitOnChar]
    by_cases hc : c = sep
    · rw [if_pos hc]
      have h2 : (s.takeWhile fun c => c != sep) ∈ splitOnChar sep (a2 ++ sep :: s) := by
        rcases hsp : splitOnChar sep (a2 ++ sep :: s) with _ | ⟨l0, ls⟩
        · exact absurd hsp (splitOnChar_ne_nil sep _)
        · rw [hsp] at ih
          simp only [List.tail_cons] at ih
          exact List.mem_cons_of_mem l0 ih
      simpa using h2
    · rw [if_neg hc]
      rcases hsp : splitOnChar sep (a2 ++ sep :: s) with _ | ⟨l0, ls⟩
      · exact absurd hsp (splitOnChar_ne_nil sep _)
      · rw [hsp] at ih
        simpa using ih

theorem digit_bne_newline {c : Char} (h : c.isDigit) : (c != '\n') = true := by
  simp only [bne_iff_ne, ne_eq]
  intro heq
  subst heq
  exact absurd h (by decide)

theorem lineMarker_some_of_head {ds w : Text} (hne : ds ≠ []) (hdig : ∀ c ∈ ds, c.isDigit) :
    lineMarker ('[' :: (ds ++ ']' :: w)) = some ds := by
  have hrun := @run_takeWhile Char.isDigit ds w ']' (by decide) hdig
  simp only [lineMarker, hrun.1, hrun.2]
  simp [hne]

theorem lineMarker_shape {l ds : Text} (h : lineMarker l = some ds) :
    ∃ w, l = '[' :: (ds ++ ']' :: w) ∧ ds ≠ [] ∧ ∀ c ∈ ds, c.isDigit := by
  rw [lineMarker.eq_def] at h
  split at h
  · rename_i r
    split at h
    · rename_i w hdw
      by_cases hemp : (r.takeWhile Char.isDigit).isEmpty
      · rw [if_pos hemp] at h
        exact absurd h (by simp)
      · rw [if_neg hemp] at h
        have hds : r.takeWhile Char.isDigit = ds := Option.some.inj h
        refine ⟨w, ?_, ?_, ?_⟩
        · have hr : r = r.takeWhile Char.isDigit ++ r.dropWhile Char.isDigit :=
            (List.takeWhile_append_dropWhile Char.isDigit r).symm
          rw [hdw, hds] at hr
          rw [hr]
        · intro hx2
          rw [hds, hx2] at hemp
          simp at hemp
        · intro c hc
          rw [← hds] at hc
          exact List.mem_takeWhile_imp hc
    · exact absurd h (by simp)
  · exact absurd h (by simp)

theorem markerOcc_of_mem_lineStartMarkers {t ds : Text} (h : ds ∈ lineStartMarkers t) :
    MarkerOcc t ds := by
  obtain ⟨l, hl, hm⟩ := List.mem_filterMap.mp h
  obtain ⟨w, rfl, hne, hdig⟩ := lineMarker_shape hm
  obtain ⟨a, b, rfl⟩ := splitOnChar_mem_infix hl
  have h1 : MarkerOcc ('[' :: (ds ++ ']' :: w)) ds := ⟨[], w, by simp, hne, hdig⟩
  have h3 := @markerOcc_mono_right a ('[' :: (ds ++ ']' :: w) ++ b) ds
    (@markerOcc_mono_left ('[' :: (ds ++ ']' :: w)) b ds h1)
  simpa [List.append_assoc] using h3

theorem mem_lineStartMarkers_of_newline {i : Nat} (a r : Text) :
    natDigits i ∈ lineStartMarkers (a ++ '\n' :: ('[' :: (natDigits i ++ ']' :: r))) := by
  have hpiece := takeWhile_mem_splitOnChar_tail '\n' a ('[' :: (natDigits i ++ ']' :: r))
  have htk : (('[' :: (natDigits i ++ ']' :: r)).takeWhile fun c => c != '\n') =
      '[' :: (natDigits i ++ ']' :: (r.takeWhile fun c => c != '\n')) := by
    rw [List.takeWhile_cons]
    simp only [show ('[' != '\n') = true by decide, if_true]
    rw [takeWhile_append_all (']' :: r) (fun c hc => digit_bne_newline (natDigits_all_digit i c hc))]
    rw [List.takeWhile_cons]
    simp only [show (']' != '\n') = true by decide, if_true]
  rw [htk] at hpiece
  have hmem : ('[' :: (natDigits i ++ ']' :: (r.takeWhile fun c => c != '\n'))) ∈
      splitOnChar '\n' (a ++ '\n' :: ('[' :: (natDigits i ++ ']' :: r))) :=
    List.mem_of_mem_tail hpiece
  exact List.mem_filterMap.mpr ⟨_, hmem,
    lineMarker_some_of_head (natDigits_ne_nil i) (natDigits_all_digit i)⟩

theorem isPrefixOf_iff {p t : Text} : p.isPrefixOf t = true ↔ ∃ r, t = p ++ r := by
  induction p generalizing t with
  | nil => simp [List.isPrefixOf]
  | cons c cs ih =>
    cases t with
    | nil => simp [List.isPrefixOf]
    | cons d ds =>
      simp only [List.isPrefixOf, Bool.and_eq_true, beq_iff_eq, ih, List.cons_append,
        List.cons.injEq]
      constructor
      · rintro ⟨rfl, r, rfl⟩
        exact ⟨r, rfl, rfl⟩
      · rintro ⟨r, rfl, rfl⟩
        exact ⟨rfl, r, rfl⟩

theorem isSubstring_iff {pat t : Text} : isSubstring pat t = true ↔ ∃ a b, t = a ++ pat ++ b := by
  induction t with
  | nil =>
    rw [isSubstring]
    simp only [List.isEmpty_iff]
    constructor
    · rintro rfl
      exact ⟨[], [], rfl⟩
    · rintro ⟨a, b, h⟩
      have h2 := List.append_eq_nil.mp h.symm
      exact (List.append_eq_nil.mp h2.1).2
  | cons c rest ih =>
    rw [isSubstring]
    simp only [Bool.or_eq_true, isPrefixOf_iff, ih]
    constructor
    · rintro (⟨r, hr⟩ | ⟨a, b, hr⟩)
      · exact ⟨[], r, by simpa using hr⟩
      · exact ⟨c :: a, b, by simp [hr]⟩
    · rintro ⟨a, b, he⟩
      cases a with
      | nil => exact Or.inl ⟨b, by simpa using he⟩
      | cons a1 a2 =>
        simp at he
        exact Or.inr ⟨a2, b, by simp [he.2]⟩

theorem replaceFirst_decomp {pat rep t : Text} (h : isSubstring pat t = true) :
    ∃ a b, t = a ++ pat ++ b ∧ replaceFirst pat rep t = a ++ rep ++ b := by
  induction t with
  | nil =>
    simp only [isSubstring, List.isEmpty_iff] at h
    subst h
    exact ⟨[], [], by simp, by simp [replaceFirst]⟩
  | cons c rest ih =>
    by_cases hp : pat.isPrefixOf (c :: rest)
    · obtain ⟨r, hr⟩ := isPrefixOf_iff.mp hp
      refine ⟨[], r, by simpa using hr, ?_⟩
      rw [replaceFirst, if_pos hp, hr]
      simp [List.drop_left]
    · rw [isSubstring, Bool.or_eq_true] at h
      rcases h with h | h
      · exact absurd h hp
      · obtain ⟨a, b, hab, hrep⟩ := ih h
        refine ⟨c :: a, b, by simp [hab], ?_⟩
        rw [replaceFirst, if_neg hp, hrep]
        simp

/- ### Sorting lemmas for `apply_citations` (stable sort, no identifier
tiebreak) -/

theorem insertDesc_perm (x : Text × Source) (l : List (Text × Source)) :
    (insertDesc x l).Perm (x :: l) := by
  induction l with
  | nil => exact List.Perm.refl _
  | cons y ys ih =>
    rw [insertDesc]
    by_cases h : x.2.credibility_score < y.2.credibility_score
    · rw [if_pos h]
      exact (ih.cons y).trans (List.Perm.swap x y ys)
    · rw [if_neg h]

theorem sortByCredDesc_perm (l : List (Text × Source)) : (sortByCredDesc l).Perm l := by
  induction l with
  | nil => exact List.Perm.refl _
  | cons x xs ih =>
    rw [sortByCredDesc]
    exact (insertDesc_perm x (sortByCredDesc xs)).trans (ih.cons x)

theorem insertDesc_sorted {x : Text × Source} {l : List (Text × Source)}
    (h : l.Pairwise fun a b => b.2.credibility_score ≤ a.2.credibility_score) :
    (insertDesc x l).Pairwise fun a b => b.2.credibility_score ≤ a.2.credibility_score := by
  induction l with
  | nil => simp [insertDesc]
  | cons y ys ih =>
    rw [List.pairwise_cons] at h
    rw [insertDesc]
    by_cases hxy : x.2.credibility_score < y.2.credibility_score
    · rw [if_pos hxy]
      rw [List.pairwise_cons]
      refine ⟨?_, ih h.2⟩
      intro b hb
      rcases List.mem_cons.mp ((insertDesc_perm x ys).mem_iff.mp hb) with rfl | hb2
      · exact le_of_lt hxy
      · exact h.1 b hb2
    · rw [if_neg hxy]
      rw [List.pairwise_cons]
      refine ⟨?_, List.pairwise_cons.mpr h⟩
      intro b hb
      rcases List.mem_cons.mp hb with rfl | hb2
      · exact le_of_not_lt hxy
      · exact le_trans (h.1 b hb2) (le_of_not_lt hxy)

theorem sortByCredDesc_sorted (l : List (Text × Source)) :
    (sortByCredDesc l).Pairwise fun a b => b.2.credibility_score ≤ a.2.credibility_score := by
  induction l with
  | nil => simp [sortByCredDesc]
  | cons x xs ih =>
    rw [sortByCredDesc]
    exact insertDesc_sorted ih

theorem insertDesc_filter_eq (x : Text × Source) (l : List (Text × Source)) (c : ℚ) :
    (insertDesc x l).filter (fun e => e.2.credibility_score == c) =
      (x :: l).filter (fun e => e.2.credibility_score == c) := by
  induction l with
  | nil => rfl
  | cons y ys ih =>
    rw [insertDesc]
    by_cases h : x.2.credibility_score < y.2.credibility_score
    · rw [if_pos h]
      by_cases hx : x.2.credibility_score = c
      · have hy : ¬ (y.2.credibility_score = c) := by
          intro hy
          rw [hx] at h
          rw [hy] at h
          exact lt_irrefl c h
        simp only [List.filter_cons, ih]
        simp [hx, hy]
      · simp only [List.filter_cons, ih]
        by_cases hy : y.2.credibility_score = c <;> simp [hx, hy]
    · rw [if_neg h]

theorem sortByCredDesc_filter_eq (l : List (Text × Source)) (c : ℚ) :
    (sortByCredDesc l).filter (fun e => e.2.credibility_score == c) =
      l.filter (fun e => e.2.credibility_score == c) := by
  induction l with
  | nil => rfl
  | cons x xs ih =>
    rw [sortByCredDesc, insertDesc_filter_eq, List.filter_cons, List.filter_cons, ih]

/- ### Coverage: the numerator regex versus the split pieces -/

theorem splitPieces_eq_single {t : Text} (h : t.dropWhile (fun c => !sentencePunct c) = []) :
    splitPieces t = [t.takeWhile (fun c => !sentencePunct c)] := by
  induction t with
  | nil => rfl
  | cons c rest ih =>
    rw [List.dropWhile_cons] at h
    by_cases hc : sentencePunct c = true
    · rw [if_neg (by simp [hc])] at h
      simp at h
    · rw [if_pos (by simp [hc])] at h
      rw [splitPieces.eq_def]
      simp only [if_neg hc, ih h]
      rw [List.takeWhile_cons, if_pos (by simp [hc])]

theorem splitPieces_eq_cons {t : Text} {p : Char} {rest : Text}
    (h : t.dropWhile (fun c => !sentencePunct c) = p :: rest) :
    splitPieces t = t.takeWhile (fun c => !sentencePunct c) ::
      splitPieces (rest.dropWhile sentencePunct) := by
  induction t generalizing p rest with
  | nil => simp at h
  | cons c t2 ih =>
    rw [List.dropWhile_cons] at h
    by_cases hc : sentencePunct c = true
    · rw [if_neg (by simp [hc])] at h
      injection h with h1 h2
      subst h1
      subst h2
      rw [List.takeWhile_cons, if_neg (by simp [hc])]
      rw [splitPieces.eq_def]
      simp only [if_pos hc]
      cases t2 with
      | nil => rfl
      | cons q r5 =>
        by_cases hq : sentencePunct q = true
        · simp only [hq, if_true]
          have hq2 : List.dropWhile (fun c => !sentencePunct c) (q :: r5) = q :: r5 := by
            rw [List.dropWhile_cons, if_neg (by simp [hq])]
          rw [ih hq2]
          rw [List.takeWhile_cons, if_neg (by simp [hq])]
          rw [List.dropWhile_cons, if_pos hq]
        · simp only [hq, Bool.false_eq_true, if_false]
          rw [List.dropWhile_cons, if_neg (by simp [hq])]
    · rw [if_pos (by simp [hc])] at h
      rw [splitPieces.eq_def]
      simp only [if_neg hc, ih h]
      rw [List.takeWhile_cons, if_pos (by simp [hc])]

theorem splitPieces_ne_nil (t : Text) : splitPieces t ≠ [] := by
  rcases hd : t.dropWhile (fun c => !sentencePunct c) with _ | ⟨p, rest⟩
  · rw [splitPieces_eq_single hd]
    simp
  · rw [splitPieces_eq_cons hd]
    simp

theorem countCovered_nil : countCovered [] = 0 := rfl

theorem countCovered_cons_punct {c : Char} {rest : Text} (h : sentencePunct c = true) :
    countCovered (c :: rest) =
      (if (findMarkers (rest.takeWhile fun d => !sentencePunct d)).isEmpty then 0 else 1)
        + countCovered rest := by
  rw [countCovered]
  rw [if_pos h]

theorem countCovered_not_punct0 {c : Char} {rest : Text} (h : ¬ sentencePunct c = true) :
    countCovered (c :: rest) = countCovered rest := by
  rw [countCovered]
  rw [if_neg h]

theorem countCovered_dropWhile (rest : Text) :
    countCovered (rest.dropWhile fun d => !sentencePunct d) = countCovered rest := by
  induction rest with
  | nil => rfl
  | cons d r5 ih =>
    rw [List.dropWhile_cons]
    by_cases hd : sentencePunct d = true
    · rw [if_neg (by simp [hd])]
    · rw [if_pos (by simp [hd]), ih, countCovered_not_punct0 hd]

theorem countCovered_punct {c : Char} {rest : Text} (h : sentencePunct c = true) :
    countCovered (c :: rest) =
      (if (findMarkers (rest.takeWhile fun d => !sentencePunct d)).isEmpty then 0 else 1)
        + countCovered (rest.dropWhile fun d => !sentencePunct d) := by
  rw [countCovered_cons_punct h, countCovered_dropWhile]

theorem countCovered_not_punct {c : Char} {rest : Text} (h : ¬ sentencePunct c = true) :
    countCovered (c :: rest) = countCovered rest := by
  rw [countCovered]
  rw [if_neg h]

theorem dropWhile_head_false {p : Char → Bool} :
    ∀ {l : Text} {x : Char} {xs : Text}, l.dropWhile p = x :: xs → p x = false := by
  intro l
  induction l with
  | nil =>
    intro x xs h
    simp at h
  | cons c cs ih =>
    intro x xs h
    rw [List.dropWhile_cons] at h
    by_cases hp : p c
    · rw [if_pos hp] at h
      exact ih h
    · rw [if_neg hp] at h
      injection h with h1 h2
      rw [← h1]
      simpa using hp

/-- The numerator scan, re-anchored at the segment that follows one
punctuation anchor, equals the piece count of the remaining split. -/
theorem countCovered_after_punct (rest : Text) :
    (if (findMarkers (rest.takeWhile fun d => !sentencePunct d)).isEmpty then 0 else 1)
        + countCovered (rest.dropWhile fun d => !sentencePunct d) =
      (splitPieces (rest.dropWhile sentencePunct)).countP
        (fun seg => !(findMarkers seg).isEmpty) := by
  suffices H : ∀ n r, List.length r = n →
      (if (findMarkers (r.takeWhile fun d => !sentencePunct d)).isEmpty then 0 else 1)
          + countCovered (r.dropWhile fun d => !sentencePunct d) =
        (splitPieces (r.dropWhile sentencePunct)).countP
          (fun seg => !(findMarkers seg).isEmpty) from H rest.length rest rfl
  intro n
  induction n using Nat.strong_induction_on with
  | _ n ih =>
    intro r ht
    cases r with
    | nil =>
      simp only [List.takeWhile_nil, List.dropWhile_nil, findMarkers_nil, countCovered_nil,
        List.isEmpty_nil, if_true, Nat.add_zero]
      rw [splitPieces_eq_single (by simp)]
      simp [findMarkers_nil]
    | cons d r3 =>
      by_cases hd : sentencePunct d = true
      · have hseg : (d :: r3).takeWhile (fun x => !sentencePunct x) = [] := by
          rw [List.takeWhile_cons]
          simp [hd]
        have hv : (d :: r3).dropWhile (fun x => !sentencePunct x) = d :: r3 := by
          rw [List.dropWhile_cons]
          simp [hd]
        have hu : (d :: r3).dropWhile sentencePunct = r3.dropWhile sentencePunct := by
          rw [List.dropWhile_cons]
          simp [hd]
        rw [hseg, hv, hu, countCovered_punct hd]
        simp only [findMarkers_nil, List.isEmpty_nil, if_true, Nat.zero_add]
        exact ih r3.length (by rw [← ht] ; simp) r3 rfl
      · have hseg : (d :: r3).takeWhile (fun x => !sentencePunct x) =
            d :: r3.takeWhile (fun x => !sentencePunct x) := by
          rw [List.takeWhile_cons]
          simp [hd]
        have hvv : (d :: r3).dropWhile (fun x => !sentencePunct x) =
            r3.dropWhile (fun x => !sentencePunct x) := by
          rw [List.dropWhile_cons]
          simp [hd]
        have hu : (d :: r3).dropWhile sentencePunct = d :: r3 := by
          rw [List.dropWhile_cons]
          simp [hd]
        rw [hvv, hu]
        rcases hv : r3.dropWhile (fun x => !sentencePunct x) with _ | ⟨p3, r4⟩
        · rw [countCovered_nil, splitPieces_eq_single (by rw [List.dropWhile_cons] ; simp [hd, hv])]
          rw [hseg]
          by_cases hm : (findMarkers (d :: List.takeWhile (fun x => !sentencePunct x) r3)).isEmpty
            <;> simp [List.countP_cons, hm]
        · have hp3 : sentencePunct p3 = true := by
            have := dropWhile_head_false hv
            simpa using this
          rw [splitPieces_eq_cons (show (d :: r3).dropWhile (fun x => !sentencePunct x) =
            p3 :: r4 from hvv.trans hv)]
          rw [List.countP_cons]
          rw [countCovered_punct hp3]
          have hr4len : r4.length < n := by
            have h1 : (r3.dropWhile fun x => !sentencePunct x).length ≤ r3.length :=
              (List.dropWhile_sublist _).length_le
            rw [hv] at h1
            simp at h1
            rw [← ht]
            simp
            omega
          have hrec := ih r4.length hr4len r4 rfl
          rw [← hrec, hseg]
          have hab : (if (findMarkers
                (d :: List.takeWhile (fun x => !sentencePunct x) r3)).isEmpty = true
                then 0 else 1) =
              (if (!(findMarkers
                (d :: List.takeWhile (fun x => !sentencePunct x) r3)).isEmpty) = true
                then 1 else 0) := by
            by_cases hm : (findMarkers
                (d :: List.takeWhile (fun x => !sentencePunct x) r3)).isEmpty
              <;> simp [hm]
          rw [hab]
          exact Nat.add_comm _ _

theorem countCovered_eq_countP (t : Text) :
    countCovered t =
      ((splitPieces t).tail).countP (fun seg => !(findMarkers seg).isEmpty) := by
  induction t with
  | nil =>
    rw [countCovered_nil, splitPieces_eq_single (by simp)]
    simp
  | cons c rest ih =>
    by_cases hc : sentencePunct c = true
    · have hdw : (c :: rest).dropWhile (fun x => !sentencePunct x) = c :: rest := by
        rw [List.dropWhile_cons]
        simp [hc]
      have hu : (c :: rest).dropWhile sentencePunct = rest.dropWhile sentencePunct := by
        rw [List.dropWhile_cons]
        simp [hc]
      rw [countCovered_punct hc, splitPieces_eq_cons hdw, List.tail_cons]
      exact countCovered_after_punct rest
    · have hdw : (c :: rest).dropWhile (fun x => !sentencePunct x) =
          rest.dropWhile (fun x => !sentencePunct x) := by
        rw [List.dropWhile_cons]
        simp [hc]
      rw [countCovered_not_punct hc, ih]
      rcases hv : rest.dropWhile (fun x => !sentencePunct x) with _ | ⟨p2, r3⟩
      · rw [splitPieces_eq_single (hdw.trans hv), splitPieces_eq_single hv]
        simp
      · rw [splitPieces_eq_cons (hdw.trans hv), splitPieces_eq_cons hv]
        simp

/-- The coverage field of the validator, in closed form: the always-positive
piece count makes the guard vacuous, and the regex count equals the number
of non-leading split pieces carrying a marker. -/
theorem coverage_formula (text : Text) :
    (validate_citations text).coverage_percentage =
      (((splitPieces text).tail.countP (fun seg => !(findMarkers seg).isEmpty) : ℚ) /
        ((splitPieces text).length : ℚ)) * 100 := by
  have hpos : 0 < (splitPieces text).length :=
    List.length_pos.mpr (splitPieces_ne_nil text)
  simp only [validate_citations]
  rw [if_pos hpos, countCovered_eq_countP]

/- ### Claims C4 and C5: the coverage metric -/

/-- C4 (amended): the validator's coverage percentage equals the number of
sentence-like split pieces other than the first one (only segments that
follow a sentence-ending punctuation are counted by the regex) that
contain at least one bracketed-integer marker, divided by the total number
of split pieces, times 100. -/
theorem c4_coverage_amended (text : Text) :
    (validate_citations text).coverage_percentage =
      (((splitPieces text).tail.countP (fun seg => !(findMarkers seg).isEmpty) : ℚ) /
        ((splitPieces text).length : ℚ)) * 100 :=
  coverage_formula text

/-- C4 (counterexample): on `"see [1] foo. bar"` the split has two pieces
and the first piece contains a marker, so the claimed formula yields 50,
but the validator reports 0, because the numerator regex never counts the
segment before the first punctuation. -/
theorem c4_counterexample :
    (splitPieces c4Text).length = 2 ∧
    (splitPieces c4Text).countP (fun seg => !(findMarkers seg).isEmpty) = 1 ∧
    (validate_citations c4Text).coverage_percentage = 0 ∧
    (validate_citations c4Text).coverage_percentage ≠ ((1 : ℚ) / 2) * 100 := by
  refine ⟨by decide, by decide, ?_, ?_⟩
  · rw [coverage_formula]
    rw [show (splitPieces c4Text).tail.countP (fun seg => !(findMarkers seg).isEmpty) = 0
      from by decide]
    norm_num
  · rw [coverage_formula]
    rw [show (splitPieces c4Text).tail.countP (fun seg => !(findMarkers seg).isEmpty) = 0
      from by decide]
    norm_num

/-- C5: for every input text whose split into sentence-like segments is
non-empty, the validator's coverage percentage lies in [0, 100]. -/
theorem c5_coverage_bounds (text : Text) (h : 0 < (splitPieces text).length) :
    0 ≤ (validate_citations text).coverage_percentage ∧
      (validate_citations text).coverage_percentage ≤ 100 := by
  rw [coverage_formula]
  have hcount : (splitPieces text).tail.countP (fun seg => !(findMarkers seg).isEmpty) ≤
      (splitPieces text).length := by
    calc (splitPieces text).tail.countP (fun seg => !(findMarkers seg).isEmpty)
        ≤ (splitPieces text).tail.length := List.countP_le_length _
      _ ≤ (splitPieces text).length := by
          cases hsp : splitPieces text <;> simp
  set m := (splitPieces text).tail.countP (fun seg => !(findMarkers seg).isEmpty) with hm
  have hq : (0 : ℚ) < ((splitPieces text).length : ℚ) := by exact_mod_cast h
  constructor
  · positivity
  · rw [div_mul_eq_mul_div, div_le_iff hq]
    have hmq : (m : ℚ) ≤ ((splitPieces text).length : ℚ) := by exact_mod_cast hcount
    nlinarith

/-- C5 (witness): the bounds at a concrete text. -/
theorem c5_witness :
    0 < (splitPieces c5Text).length ∧
      (0 ≤ (validate_citations c5Text).coverage_percentage ∧
        (validate_citations c5Text).coverage_percentage ≤ 100) :=
  ⟨by decide, c5_coverage_bounds c5Text (by decide)⟩

/- ### Claim C2: determinism and the missing identifier tiebreak -/

/-- C2 (amended): for a fixed source map, including its insertion order,
`apply_citations` is a fixed function of its inputs; the sort is by
credibility descending only, and Python's stable `sorted` keeps
equal-credibility sources in map insertion order, so citation numbering
does depend on the map's insertion order, not on identifiers. -/
theorem c2_stable_sort_amended (sources : List (Text × Source)) (c : ℚ) :
    (sortByCredDesc sources).Perm sources ∧
    (sortByCredDesc sources).Pairwise
      (fun a b => b.2.credibility_score ≤ a.2.credibility_score) ∧
    (sortByCredDesc sources).filter (fun e => e.2.credibility_score == c) =
      sources.filter (fun e => e.2.credibility_score == c) :=
  ⟨sortByCredDesc_perm sources, sortByCredDesc_sorted sources,
    sortByCredDesc_filter_eq sources c⟩

/-- C2 (counterexample): the two maps hold the same entries (they are
permutations of one another), both sources clear the default threshold and
match the text, yet the numbering follows insertion order for the
credibility tie, and the two runs produce different output; with the
identifier tiebreak the claim asserts, `aaa` would always be cited first. -/
theorem c2_counterexample :
    c2MapFirstA.Perm c2MapFirstB ∧
    (citePass (sortByCredDesc c2MapFirstA) c2Text).cited =
      [("aaa".data, 1), ("bbb".data, 2)] ∧
    (citePass (sortByCredDesc c2MapFirstB) c2Text).cited =
      [("bbb".data, 1), ("aaa".data, 2)] ∧
    apply_citations ("apa".data) c2MapFirstA c2Text (mkRat 1 2) ≠
      apply_citations ("apa".data) c2MapFirstB c2Text (mkRat 1 2) := by
  refine ⟨?_, by decide, by decide, by decide⟩
  decide

/- ### Claim C6: dead-reference warnings are unreachable -/

/-- C6 (amended): the validator never emits a dead-reference warning.  The
citation set is extracted with an unanchored pattern over the whole text,
so every reference number (matched at a line start) is also counted as a
citation; the set difference behind the dead-reference warning is always
empty, and the warnings list consists of duplicate-marker warnings only. -/
theorem c6_dead_refs_amended (text : Text) :
    deadRefWarnings text = [] ∧
    (validate_citations text).warnings = dupWarnings text := by
  have hsub : ∀ n ∈ ((lineStartMarkers text).map digitsVal).dedup,
      (((findMarkers text).map digitsVal).dedup).contains n = true := by
    intro n hn
    rw [List.mem_dedup] at hn
    obtain ⟨ds, hds, rfl⟩ := List.mem_map.mp hn
    have hocc : MarkerOcc text ds := markerOcc_of_mem_lineStartMarkers hds
    have hmem : ds ∈ findMarkers text := mem_findMarkers_of_markerOcc hocc
    have : digitsVal ds ∈ ((findMarkers text).map digitsVal).dedup :=
      List.mem_dedup.mpr (List.mem_map.mpr ⟨ds, hmem, rfl⟩)
    exact List.elem_eq_true_of_mem this
  have hdead : deadRefWarnings text = [] := by
    rw [deadRefWarnings]
    rw [List.filter_eq_nil.mpr (fun n hn => by
      simp only [hsub n hn]
      simp)]
    rfl
  refine ⟨hdead, ?_⟩
  simp only [validate_citations, hdead, List.nil_append]

/-- C6 (counterexample): the text carries the reference entry `[1]` at a
line start while the body never cites it, yet the validator returns no
warning at all, contradicting the claimed one-warning-per-dead-reference
behavior. -/
theorem c6_counterexample :
    ("1".data ∈ lineStartMarkers c6Text) ∧
    (validate_citations c6Text).warnings = [] ∧
    (validate_citations c6Text).errors = [] := by
  refine ⟨by decide, by decide, by decide⟩

/- ### Claim C9: the reference style follows the environment variable -/

/-- C9: without an explicit style argument the engine takes the style from
the `CITATION_STYLE` environment variable, stripped and lower-cased (the
doubled lower-casing mirrors the two `.lower()` calls in `__init__`), so
two runs over identical data in different process environments can render
different references; only an unset or unrecognized variable falls back to
`apa`. -/
theorem c9_style_env :
    (∀ env : Text, resolveStyle none env =
      (if pyLower (pyLower (pyStrip env)) = "apa".data ∨
          pyLower (pyLower (pyStrip env)) = "chicago".data ∨
          pyLower (pyLower (pyStrip env)) = "generic".data
        then pyLower (pyLower (pyStrip env)) else "apa".data)) ∧
    resolveStyle none ("  Chicago ".data) = "chicago".data ∧
    resolveStyle none [] = "apa".data ∧
    resolveStyle none ("mla".data) = "apa".data ∧
    format_reference (resolveStyle none ("chicago".data)) c9Source 1 ≠
      format_reference (resolveStyle none []) c9Source 1 := by
  refine ⟨?_, by decide, by decide, by decide, by decide⟩
  intro env
  rw [resolveStyle]
  by_cases hempty : pyLower (pyStrip env) = []
  · rw [hempty]
    simp [pyLower]
  · simp only [hempty, Bool.false_eq_true, if_false, if_neg hempty]
    simp only [Bool.or_eq_true, decide_eq_true_eq]
    split_ifs with h1 h2 h3
    · rfl
    · exact absurd (or_assoc.mp h1) h2
    · exact absurd (or_assoc.mpr h3) h1
    · rfl

/- ### Claim C10: the citation key and the loader identifier agree -/

theorem hexChar_digitChar {d : Nat} (h : d < 16) : isHexChar (Nat.digitChar d) := by
  interval_cases d <;> decide

theorem md5Hex_length (msg : List Nat) : (md5Hex msg).length = 32 := by
  simp [md5Hex, wordLEHex, byteHex]

theorem mem_byteHex_hex {b : Nat} {c : Char} (hc : c ∈ byteHex b) : isHexChar c := by
  simp only [byteHex, List.mem_cons, List.not_mem_nil, or_false] at hc
  rcases hc with rfl | rfl <;> exact hexChar_digitChar (Nat.mod_lt _ (by omega))

theorem mem_wordLEHex_hex {w : Nat} {c : Char} (hc : c ∈ wordLEHex w) : isHexChar c := by
  simp only [wordLEHex, List.mem_append] at hc
  rcases hc with ((h | h) | h) | h <;> exact mem_byteHex_hex h

theorem mem_md5Hex_hex (msg : List Nat) : ∀ c ∈ md5Hex msg, isHexChar c := by
  intro c hc
  simp only [md5Hex, List.mem_append] at hc
  rcases hc with ((h | h) | h) | h <;> exact mem_wordLEHex_hex h

/-- C10: `Source.get_citation_key` and the identifier the loader computes
for an entry with the same locator are both the first eight hexadecimal
characters of the MD5 digest of the locator, so equal locators always map
to equal identifiers on both paths, including through `processEntry`. -/
theorem c10_citation_key (s : Source) (e : RawSource) (u ti ts : Text)
    (hs : s.url = u) (hu : e.url = some u) (hti : e.title = some ti)
    (hts : e.timestamp = some ts) :
    Source.get_citation_key s = sourceId u ∧
    sourceId u = (md5Hex (utf8Bytes u)).take 8 ∧
    (md5Hex (utf8Bytes u)).length = 32 ∧
    (∀ c ∈ sourceId u, isHexChar c) ∧
    (∃ src, processEntry [] e = some [(Source.get_citation_key s, src)]) := by
  subst hs
  refine ⟨rfl, rfl, md5Hex_length _, ?_, ?_⟩
  · intro c hc
    exact mem_md5Hex_hex _ c (List.mem_of_mem_take hc)
  · rw [processEntry, hu]
    simp only [List.lookup_nil, Option.isSome_none, Bool.false_eq_true, if_false]
    rw [hti, hts]
    exact ⟨_, rfl⟩

/-- C10 (witness): the round trip at a concrete locator. -/
theorem c10_witness :
    c10Source.url = "https://example.com/paper".data ∧
    c10Entry.url = some ("https://example.com/paper".data) ∧
    (Source.get_citation_key c10Source = sourceId ("https://example.com/paper".data) ∧
      sourceId ("https://example.com/paper".data) =
        (md5Hex (utf8Bytes ("https://example.com/paper".data))).take 8 ∧
      (md5Hex (utf8Bytes ("https://example.com/paper".data))).length = 32 ∧
      (∀ c ∈ sourceId ("https://example.com/paper".data), isHexChar c) ∧
      (∃ src, processEntry [] c10Entry =
        some [(Source.get_citation_key c10Source, src)])) :=
  ⟨rfl, rfl, c10_citation_key c10Source c10Entry ("https://example.com/paper".data)
    ("Paper Title".data) ("2024-01-15T10:30:00Z".data) rfl rfl rfl rfl⟩

/- ### Claim C7: required fields and malformed-batch tolerance -/

theorem extract_foldAux_warn_length (batches : List Batch)
    (acc : List (Text × Source) × List Bool) :
    (batches.foldl
      (fun acc b =>
        match processBatch acc.1 b with
        | (s2, w) => (s2, acc.2 ++ [w])) acc).2.length = acc.2.length + batches.length := by
  induction batches generalizing acc with
  | nil => simp
  | cons b bs ih =>
    rw [List.foldl_cons, ih]
    rcases processBatch acc.1 b with ⟨s2, w⟩
    simp
    omega

/-- C7 (amended): the loader requires locator, title and `observedAt`
(`timestamp`) for every new entry; `quotes`, `credibility`, `kind` and
`accessedOn` default when absent.  An entry missing a required field, or a
batch that fails parsing, aborts only that batch (entries already
processed are kept) with a warning, and loading continues: every batch is
processed and flagged. -/
theorem c7_loader_amended :
    (∀ (e : RawSource) (u ti ts : Text) (sources : List (Text × Source)),
      e.url = some u → e.title = some ti → e.timestamp = some ts →
      (sources.lookup (sourceId u)).isSome = false →
      processEntry sources e = some (sources ++ [(sourceId u,
        { url := u, title := ti, timestamp := ts,
          relevant_quotes := e.relevant_quotes.getD [],
          credibility_score := e.credibility_score.getD (mkRat 1 2),
          source_type := e.source_type.getD ("unknown".data),
          access_date := e.access_date.getD [] })])) ∧
    (∀ (e : RawSource) (sources : List (Text × Source)), e.url = none →
      processEntry sources e = none) ∧
    (∀ (e : RawSource) (u : Text) (sources : List (Text × Source)),
      e.url = some u → (sources.lookup (sourceId u)).isSome = false →
      (e.title = none ∨ e.timestamp = none) → processEntry sources e = none) ∧
    (∀ sources, processBatch sources none = (sources, true)) ∧
    (∀ batches, (extract_all_sources batches).2.length = batches.length) := by
  refine ⟨?_, ?_, ?_, fun sources => rfl, ?_⟩
  · intro e u ti ts sources hu hti hts hlk
    rw [processEntry, hu]
    simp only [hlk, Bool.false_eq_true, if_false]
    rw [hti, hts]
  · intro e sources hu
    rw [processEntry, hu]
  · intro e u sources hu hlk hmiss
    rw [processEntry, hu]
    simp only [hlk, Bool.false_eq_true, if_false]
    rcases hmiss with hm | hm <;> rw [hm]
    rcases e.title with _ | ti2 <;> rfl
  · intro batches
    rw [extract_all_sources, extract_foldAux_warn_length]
    simp

/-- C7 (counterexample): a batch whose single entry carries locator, title
and optional fields, but no `timestamp`, is skipped with a warning: the
loaded map stays empty, refuting the claim that such a batch is never
skipped. -/
theorem c7_counterexample :
    c7NoTimestamp.url ≠ none ∧ c7NoTimestamp.title ≠ none ∧
    c7NoTimestamp.timestamp = none ∧
    extract_all_sources [some [c7NoTimestamp]] = ([], [true]) :=
  ⟨by decide, by decide, rfl, by decide⟩

/-- C7 (witness): the amended behavior at concrete inputs: the complete
entry loads with defaulted optional fields, the timestamp-less entry
aborts, and the malformed batch only flags a warning. -/
theorem c7_witness :
    c7Complete.url = some ("https://b.example/two".data) ∧
    (([] : List (Text × Source)).lookup
      (sourceId ("https://b.example/two".data))).isSome = false ∧
    processEntry [] c7Complete = some [(sourceId ("https://b.example/two".data),
      { url := "https://b.example/two".data, title := "B Title".data,
        timestamp := "2024-01-01T00:00:00Z".data,
        relevant_quotes := c7Complete.relevant_quotes.getD [],
        credibility_score := c7Complete.credibility_score.getD (mkRat 1 2),
        source_type := c7Complete.source_type.getD ("unknown".data),
        access_date := c7Complete.access_date.getD [] })] ∧
    processEntry [] c7NoTimestamp = none ∧
    processBatch [] none = ([], true) :=
  ⟨rfl, by decide,
    c7_loader_amended.1 c7Complete ("https://b.example/two".data) ("B Title".data)
      ("2024-01-01T00:00:00Z".data) [] rfl rfl rfl (by decide),
    c7_loader_amended.2.2.1 c7NoTimestamp ("https://a.example/one".data) [] rfl
      (by decide) (Or.inr rfl),
    c7_loader_amended.2.2.2.1 []⟩

theorem intercalate_cons_ex (sep p : Text) (l : List Text) :
    ∃ r, List.intercalate sep (p :: l) = p ++ r := by
  cases l with
  | nil => exact ⟨[], by simp [List.intercalate]⟩
  | cons q qs =>
    exact ⟨sep ++ List.intercalate sep (q :: qs), by
      simp [List.intercalate, List.intersperse]⟩

theorem joinParts_head (p : Text) (hp : ¬ p = []) (parts : List (Option Text)) :
    ∃ r, joinParts (some p :: parts) = p ++ r := by
  have h : joinParts (some p :: parts) =
      List.intercalate (" ".data)
        (p :: (parts.filterMap fun o =>
          match o with
          | some q => if q = [] then none else some q
          | none => none)) := by
    simp [joinParts, List.filterMap_cons, hp]
  rw [h]
  exact intercalate_cons_ex (" ".data) p _

theorem fmt_accessed_empty (source : Source) (style : Text)
    (h : source.access_date = []) : fmt_accessed source style = none := by
  simp [fmt_accessed, h]

theorem fmt_accessed_no_parse (source : Source) (style : Text)
    (h1 : fromIso source.access_date = none)
    (h2 : strptimeYmd source.access_date = none) :
    fmt_accessed source style = none := by
  rw [fmt_accessed]
  by_cases he : source.access_date = []
  · rw [if_pos he]
  · rw [if_neg he, h1, h2]

theorem format_reference_head (style : Text) (source : Source) (n : Nat) :
    ∃ rest, format_reference style source n =
      ('[' :: natDigits n) ++ (']' :: ' ' :: rest) := by
  rw [format_reference]
  split_ifs with h1 h2
  · obtain ⟨r, hr⟩ := joinParts_head
      ("[".data ++ natDigits n ++ "] ".data ++ source.title ++ ". (".data ++
        fmt_date source.timestamp ("ymd".data) ++ ").".data)
      (by simp) [(match site_name source with
                  | some s => if s = [] then none else some (s ++ ".".data)
                  | none => none),
                 some (source.url ++ ".".data),
                 fmt_accessed source ("apa".data)]
    refine ⟨source.title ++ ". (".data ++ fmt_date source.timestamp ("ymd".data) ++
      ").".data ++ r, ?_⟩
    rw [format_reference_apa]
    rw [hr, show ("[".data : Text) = ['['] from rfl,
      show ("] ".data : Text) = [']', ' '] from rfl]
    simp [List.append_assoc]
  · obtain ⟨r, hr⟩ := joinParts_head
      ("[".data ++ natDigits n ++ "] ".data ++ source.title ++ ".".data)
      (by simp) [(match site_name source with
                  | some s => if s = [] then none else some (s ++ ".".data)
                  | none => none),
                 some (fmt_date source.timestamp ("mdy".data) ++ ".".data),
                 some (source.url ++ ".".data),
                 fmt_accessed source ("chicago".data)]
    refine ⟨source.title ++ ".".data ++ r, ?_⟩
    rw [format_reference_chicago]
    rw [hr, show ("[".data : Text) = ['['] from rfl,
      show ("] ".data : Text) = [']', ' '] from rfl]
    simp [List.append_assoc]
  · refine ⟨source.title ++ " (".data ++
      (match fromIso (replaceAllZ source.timestamp) with
       | some dt => natDigits dt.year
       | none => "n.d.".data) ++ "). ".data ++ source.url, ?_⟩
    rw [format_generic_reference]
    rw [show ("[".data : Text) = ['['] from rfl,
      show ("] ".data : Text) = [']', ' '] from rfl]
    simp [List.append_assoc]

/-- C8: reference formatting is total — every style yields a string headed
by the bracketed citation number — an `observedAt` (`timestamp`) that fails
ISO-8601 parsing renders as the literal "n.d.", and the accessed-date
segment is omitted entirely (never "n.d.") when `access_date` is absent or
fails both the ISO-8601 and the plain YYYY-MM-DD parse; whenever it is
rendered, the access date was present and one of the two parses succeeded. -/
theorem c8_formatter_total :
    (∀ (style : Text) (source : Source) (n : Nat),
      ∃ rest, format_reference style source n =
        ('[' :: natDigits n) ++ (']' :: ' ' :: rest)) ∧
    (∀ (iso order : Text), fromIso (replaceAllZ iso) = none →
      fmt_date iso order = "n.d.".data) ∧
    (∀ (source : Source) (style : Text), source.access_date = [] →
      fmt_accessed source style = none) ∧
    (∀ (source : Source) (style : Text),
      fromIso source.access_date = none → strptimeYmd source.access_date = none →
      fmt_accessed source style = none) ∧
    (∀ (source : Source) (style : Text),
      fmt_accessed source style ≠ none →
      source.access_date ≠ [] ∧
      ((fromIso source.access_date).isSome ∨
        (strptimeYmd source.access_date).isSome)) := by
  refine ⟨format_reference_head, ?_, fmt_accessed_empty, fmt_accessed_no_parse, ?_⟩
  · intro iso order h
    rw [fmt_date, h]
  · intro source style hne
    constructor
    · intro he
      exact hne (fmt_accessed_empty source style he)
    · by_cases h1 : fromIso source.access_date = none
      · by_cases h2 : strptimeYmd source.access_date = none
        · exact absurd (fmt_accessed_no_parse source style h1 h2) hne
        · exact Or.inr (Option.isSome_iff_ne_none.mpr h2)
      · exact Or.inl (Option.isSome_iff_ne_none.mpr h1)

/-- C8 (witness): concrete instances of the formatter guarantees. -/
theorem c8_witness :
    fromIso (replaceAllZ ("not-a-date".data)) = none ∧
    fmt_date ("not-a-date".data) ("ymd".data) = "n.d.".data ∧
    c10Source.access_date = [] ∧
    fmt_accessed c10Source ("apa".data) = none ∧
    fromIso c8BadAccess.access_date = none ∧
    strptimeYmd c8BadAccess.access_date = none ∧
    fmt_accessed c8BadAccess ("apa".data) = none ∧
    (c9Source.access_date ≠ [] ∧
      ((fromIso c9Source.access_date).isSome ∨
        (strptimeYmd c9Source.access_date).isSome)) :=
  ⟨by decide, c8_formatter_total.2.1 ("not-a-date".data) ("ymd".data) (by decide),
   rfl, c8_formatter_total.2.2.1 c10Source ("apa".data) rfl,
   by decide, by decide,
   c8_formatter_total.2.2.2.1 c8BadAccess ("apa".data) (by decide) (by decide),
   c8_formatter_total.2.2.2.2 c9Source ("apa".data) (by decide)⟩

theorem citeQuotes_hit (sid : Text) (st : CiteState) (q : Text) (rest : List Text)
    (hlen : ¬ (pyStrip q).length < 10)
    (hcond : (isSubstring q st.text && st.cited.all fun p => p.1 != sid) = true) :
    citeQuotes sid st (q :: rest) =
      ⟨replaceFirst q (q ++ " [".data ++ natDigits st.counter ++ "]".data) st.text,
       st.cited ++ [(sid, st.counter)], st.counter + 1⟩ := by
  simp only [citeQuotes, hlen, if_false, hcond, if_true]

/-- C3 (amended): citation numbers follow the credibility-descending
traversal PROVIDED each source in turn still finds its quote in the
already-rewritten text: with credibilities 0.9, 0.5, 0.95 and each quote
matching at its turn, the 0.95 source gets [1], the 0.9 source [2] and the
0.5 source [3].  (Without the staged-match hypotheses the property fails:
an earlier insertion can destroy a later match, see the counterexample.) -/
theorem c3_numbering_amended
    (idA idB idC qA qB qC text : Text) (sA sB sC : Source)
    (hA : sA.credibility_score = mkRat 9 10)
    (hB : sB.credibility_score = mkRat 1 2)
    (hC : sC.credibility_score = mkRat 95 100)
    (hqA : sA.relevant_quotes = [qA]) (hqB : sB.relevant_quotes = [qB])
    (hqC : sC.relevant_quotes = [qC])
    (hlA : ¬ (pyStrip qA).length < 10) (hlB : ¬ (pyStrip qB).length < 10)
    (hlC : ¬ (pyStrip qC).length < 10)
    (hCA : (idC == idA) = false) (hCB : (idC == idB) = false)
    (hAB : (idA == idB) = false)
    (h1 : isSubstring qC text = true)
    (h2 : isSubstring qA
      (replaceFirst qC (qC ++ " [".data ++ natDigits 1 ++ "]".data) text) = true)
    (h3 : isSubstring qB
      (replaceFirst qA (qA ++ " [".data ++ natDigits 2 ++ "]".data)
        (replaceFirst qC (qC ++ " [".data ++ natDigits 1 ++ "]".data) text)) = true) :
    (citePass (sortByCredDesc [(idA, sA), (idB, sB), (idC, sC)]) text).cited =
      [(idC, 1), (idA, 2), (idB, 3)] := by
  have e1 : mkRat 1 2 < mkRat 95 100 := by decide
  have e2 : mkRat 9 10 < mkRat 95 100 := by decide
  have e3 : ¬ mkRat 9 10 < mkRat 1 2 := by decide
  have hsort : sortByCredDesc [(idA, sA), (idB, sB), (idC, sC)] =
      [(idC, sC), (idA, sA), (idB, sB)] := by
    simp [sortByCredDesc, insertDesc, hA, hB, hC, e1, e2, e3]
  have s1 : citeQuotes idC (⟨text, [], 1⟩ : CiteState) [qC] =
      ⟨replaceFirst qC (qC ++ " [".data ++ natDigits 1 ++ "]".data) text,
       [(idC, 1)], 2⟩ :=
    citeQuotes_hit idC ⟨text, [], 1⟩ qC [] hlC (by simp [h1])
  have s2 : citeQuotes idA
      (⟨replaceFirst qC (qC ++ " [".data ++ natDigits 1 ++ "]".data) text,
        [(idC, 1)], 2⟩ : CiteState) [qA] =
      ⟨replaceFirst qA (qA ++ " [".data ++ natDigits 2 ++ "]".data)
         (replaceFirst qC (qC ++ " [".data ++ natDigits 1 ++ "]".data) text),
       [(idC, 1), (idA, 2)], 3⟩ :=
    citeQuotes_hit idA _ qA [] hlA (by simpa [bne, hCA] using h2)
  have s3 : citeQuotes idB
      (⟨replaceFirst qA (qA ++ " [".data ++ natDigits 2 ++ "]".data)
          (replaceFirst qC (qC ++ " [".data ++ natDigits 1 ++ "]".data) text),
        [(idC, 1), (idA, 2)], 3⟩ : CiteState) [qB] =
      ⟨replaceFirst qB (qB ++ " [".data ++ natDigits 3 ++ "]".data)
         (replaceFirst qA (qA ++ " [".data ++ natDigits 2 ++ "]".data)
           (replaceFirst qC (qC ++ " [".data ++ natDigits 1 ++ "]".data) text)),
       [(idC, 1), (idA, 2), (idB, 3)], 4⟩ :=
    citeQuotes_hit idB _ qB [] hlB (by simpa [bne, hCB, hAB] using h3)
  rw [hsort]
  simp only [citePass, List.foldl_cons, List.foldl_nil, hqA, hqB, hqC]
  rw [s1, s2, s3]

/-- C3 (counterexample): credibilities 0.9, 0.5, 0.95, every quote matches
the original text, yet the numbering is NOT [hi 1, mid 2, lo 3]: the 0.95
insertion rewrites the text between the 0.9 source's matching blocks, that
source gets no citation at all, and the 0.5 source receives [2]. -/
theorem c3_counterexample :
    isSubstring ("bbbbbbbbbb cccccccccc".data) c3Text = true ∧
    (citePass (sortByCredDesc
      [("M".data, c3SrcMid), ("L".data, c3SrcLo), ("H".data, c3SrcHi)])
      c3Text).cited = [("H".data, 1), ("L".data, 2)] := by decide

/-- C3 (witness): the amended ordering guarantee at concrete inputs whose
quotes are disjoint, so every staged match succeeds. -/
theorem c3_witness :
    ¬ (pyStrip ("cccccccccc dddddddddd".data)).length < 10 ∧
    isSubstring ("eeeeeeeeee ffffffffff".data) c3wText = true ∧
    (citePass (sortByCredDesc
      [("A".data, c3wSrcA), ("B".data, c3wSrcB), ("C".data, c3wSrcC)])
      c3wText).cited = [("C".data, 1), ("A".data, 2), ("B".data, 3)] :=
  ⟨by decide, by decide,
   c3_numbering_amended ("A".data) ("B".data) ("C".data)
     ("cccccccccc dddddddddd".data) ("aaaaaaaaaa bbbbbbbbbb".data)
     ("eeeeeeeeee ffffffffff".data) c3wText c3wSrcA c3wSrcB c3wSrcC
     rfl rfl rfl rfl rfl rfl (by decide) (by decide) (by decide)
     (by decide) (by decide) (by decide) (by decide) (by decide) (by decide)⟩

/- ### C1 infrastructure: bracket-freeness of formatter components -/

theorem not_mem_ite {α : Type} {c : Prop} [Decidable c] {x : α} {a b : List α}
    (ha : x ∉ a) (hb : x ∉ b) : x ∉ (if c then a else b) := by
  by_cases h : c
  · rw [if_pos h]
    exact ha
  · rw [if_neg h]
    exact hb

theorem lbrack_not_mem_natDigits (n : Nat) : '[' ∉ natDigits n := by
  intro h
  exact absurd (natDigits_all_digit n '[' h) (by decide)

theorem lbrack_not_mem_monthName (m : Nat) : '[' ∉ monthName m := by
  rw [monthName]
  exact not_mem_ite (by decide) (not_mem_ite (by decide) (not_mem_ite (by decide)
    (not_mem_ite (by decide) (not_mem_ite (by decide) (not_mem_ite (by decide)
    (not_mem_ite (by decide) (not_mem_ite (by decide) (not_mem_ite (by decide)
    (not_mem_ite (by decide) (not_mem_ite (by decide) (by decide)))))))))))

theorem lbrack_not_mem_fmt_date (iso order : Text) : '[' ∉ fmt_date iso order := by
  intro hmem
  rw [fmt_date] at hmem
  split at hmem
  · exact absurd hmem (by decide)
  · rename_i dt
    by_cases ho : order = "ymd".data
    · rw [if_pos ho] at hmem
      simp only [List.mem_append] at hmem
      rcases hmem with (((h | h) | h) | h) | h₂
      · exact lbrack_not_mem_natDigits _ h
      · exact absurd h (by decide)
      · exact lbrack_not_mem_monthName _ h
      · exact absurd h (by decide)
      · exact lbrack_not_mem_natDigits _ h₂
    · rw [if_neg ho] at hmem
      simp only [List.mem_append] at hmem
      rcases hmem with (((h | h) | h) | h) | h₂
      · exact lbrack_not_mem_monthName _ h
      · exact absurd h (by decide)
      · exact lbrack_not_mem_natDigits _ h
      · exact absurd h (by decide)
      · exact lbrack_not_mem_natDigits _ h₂

theorem fmt_accessed_no_lbrack {source : Source} {style t : Text}
    (h : fmt_accessed source style = some t) : '[' ∉ t := by
  intro hmem
  rw [fmt_accessed] at h
  by_cases he : source.access_date = []
  · rw [if_pos he] at h
    exact absurd h (by simp)
  · rw [if_neg he] at h
    split at h
    · exact absurd h (by simp)
    · rename_i ad
      by_cases h1 : style = "apa".data
      · rw [if_pos h1] at h
        rw [← Option.some.inj h] at hmem
        simp only [List.mem_append] at hmem
        rcases hmem with ((((h2 | h2) | h2) | h2) | h2) | h₃
        · exact absurd h2 (by decide)
        · exact lbrack_not_mem_monthName _ h2
        · exact absurd h2 (by decide)
        · exact lbrack_not_mem_natDigits _ h2
        · exact absurd h2 (by decide)
        · exact lbrack_not_mem_natDigits _ h₃
      · rw [if_neg h1] at h
        by_cases h2 : style = "chicago".data
        · rw [if_pos h2] at h
          rw [← Option.some.inj h] at hmem
          simp only [List.mem_append] at hmem
          rcases hmem with ((((h3 | h3) | h3) | h3) | h3) | h₄
          · exact absurd h3 (by decide)
          · exact lbrack_not_mem_monthName _ h3
          · exact absurd h3 (by decide)
          · exact lbrack_not_mem_natDigits _ h3
          · exact absurd h3 (by decide)
          · exact lbrack_not_mem_natDigits _ h₄
        · rw [if_neg h2] at h
          exact absurd h (by simp)

theorem site_name_infix {source : Source} {h : Text} (hs : site_name source = some h) :
    ∃ a b, source.url = a ++ h ++ b := by
  rw [site_name] at hs
  split at hs
  · rename_i piece rest2 hdrop
    have hp : piece = h := Option.some.inj hs
    subst hp
    have hmem2 : piece ∈ (splitOnChar '/' source.url).drop 2 := by
      rw [hdrop]
      exact List.mem_cons_self piece rest2
    exact splitOnChar_mem_infix (List.mem_of_mem_drop hmem2)
  · exact absurd hs (by simp)

theorem lookup_isSome_of_mem_keys {l : List (Text × Source)} {a : Text}
    (h : a ∈ l.map Prod.fst) : ∃ s, l.lookup a = some s := by
  induction l with
  | nil => simp at h
  | cons e rest ih =>
    by_cases he : a == e.1
    · exact ⟨e.2, by simp [List.lookup, he]⟩
    · simp only [List.map_cons, List.mem_cons] at h
      rcases h with h | h
      · rw [h] at he
        simp at he
      · obtain ⟨s, hs⟩ := ih h
        exact ⟨s, by simp [List.lookup, he, hs]⟩

theorem intercalate_cons_of_ne_nil (sep a : Text) {l : List Text} (h : l ≠ []) :
    List.intercalate sep (a :: l) = a ++ sep ++ List.intercalate sep l := by
  cases l with
  | nil => exact absurd rfl h
  | cons b bs => simp [List.intercalate, List.intersperse]

theorem markerOcc_intercalate {c : Char} (hdig : c.isDigit = false) (hb : c ≠ ']')
    (hlb : c ≠ '[') :
    ∀ (lines : List Text) (ds : Text), MarkerOcc (List.intercalate [c] lines) ds →
      ∃ l ∈ lines, MarkerOcc l ds := by
  intro lines
  induction lines with
  | nil =>
    intro ds h
    simp [List.intercalate] at h
    exact absurd h not_markerOcc_nil
  | cons a rest ih =>
    intro ds h
    cases rest with
    | nil =>
      simp [List.intercalate] at h
      exact ⟨a, by simp, h⟩
    | cons b bs =>
      rw [intercalate_cons_of_ne_nil [c] a (by simp)] at h
      have h2 : MarkerOcc (a ++ c :: List.intercalate [c] (b :: bs)) ds := by
        simpa [List.append_assoc] using h
      rcases markerOcc_break hdig hb h2 with h3 | h3
      · exact ⟨a, by simp, h3⟩
      · obtain ⟨l, hl, hm⟩ := ih ds ((markerOcc_cons_iff hlb).mp h3)
        exact ⟨l, by simp [hl], hm⟩

theorem markerOcc_joinParts {parts : List (Option Text)} {ds : Text}
    (h : MarkerOcc (joinParts parts) ds) : ∃ q, some q ∈ parts ∧ MarkerOcc q ds := by
  rw [joinParts] at h
  obtain ⟨l, hl, hm⟩ := @markerOcc_intercalate ' ' (by decide) (by decide) (by decide) _ ds h
  obtain ⟨o, ho, hf⟩ := List.mem_filterMap.mp hl
  rcases o with _ | q
  · simp at hf
  · by_cases hq : q = []
    · rw [hq] at hf
      simp at hf
    · have hf2 : q = l := by simpa [hq] using hf
      subst hf2
      exact ⟨q, ho, hm⟩

theorem insertAscNum_perm (x : Text × Nat) (l : List (Text × Nat)) :
    (insertAscNum x l).Perm (x :: l) := by
  induction l with
  | nil => exact List.Perm.refl _
  | cons y ys ih =>
    rw [insertAscNum]
    by_cases h : y.2 < x.2
    · rw [if_pos h]
      exact (ih.cons y).trans (List.Perm.swap x y ys)
    · rw [if_neg h]

theorem sortByNumAsc_perm (l : List (Text × Nat)) : (sortByNumAsc l).Perm l := by
  induction l with
  | nil => exact List.Perm.refl _
  | cons x xs ih =>
    rw [sortByNumAsc]
    exact (insertAscNum_perm x (sortByNumAsc xs)).trans (ih.cons x)

theorem no_markerOcc_title_dot {s : Source} {w ds : Text} (hti : findMarkers s.title = [])
    (hw : '[' ∉ w) (h : MarkerOcc (s.title ++ '.' :: w) ds) : False := by
  rcases markerOcc_break (by decide) (by decide) h with h1 | h1
  · have h2 := mem_findMarkers_iff.mpr h1
    rw [hti] at h2
    simp at h2
  · exact absurd ((markerOcc_cons_iff (by decide)).mp h1) (not_markerOcc_of_no_lbrack hw)

theorem no_markerOcc_url_dot {s : Source} {ds : Text} (hur : findMarkers s.url = [])
    (h : MarkerOcc (s.url ++ '.' :: []) ds) : False := by
  rcases markerOcc_break (by decide) (by decide) h with h1 | h1
  · have h2 := mem_findMarkers_iff.mpr h1
    rw [hur] at h2
    simp at h2
  · exact absurd ((markerOcc_cons_iff (by decide)).mp h1) not_markerOcc_nil

theorem generic_tail_no_marker {s : Source} {year ds : Text}
    (hti : findMarkers s.title = []) (hur : findMarkers s.url = []) (hy : '[' ∉ year)
    (h : MarkerOcc (s.title ++ ' ' :: '(' :: (year ++ ')' :: '.' :: ' ' :: s.url)) ds) :
    False := by
  rcases markerOcc_break (by decide) (by decide) h with h1 | h1
  · have h2 := mem_findMarkers_iff.mpr h1
    rw [hti] at h2
    simp at h2
  · have h2 := (markerOcc_cons_iff (by decide)).mp h1
    have h3 := (markerOcc_cons_iff (by decide)).mp h2
    have h4 := markerOcc_of_no_lbrack hy h3
    have h5 := (markerOcc_cons_iff (by decide)).mp h4
    have h6 := (markerOcc_cons_iff (by decide)).mp h5
    have h7 := (markerOcc_cons_iff (by decide)).mp h6
    have h8 := mem_findMarkers_iff.mpr h7
    rw [hur] at h8
    simp at h8

/-- Every marker occurring in a formatted reference line is the line's own
citation number, provided the source's title and url are marker-free. -/
theorem markerOcc_format_reference {style : Text} {s : Source} {n : Nat} {ds : Text}
    (hti : findMarkers s.title = []) (hur : findMarkers s.url = [])
    (h : MarkerOcc (format_reference style s n) ds) : ds = natDigits n := by
  rw [format_reference] at h
  split_ifs at h with hs1 hs2
  · simp only [format_reference_apa] at h
    obtain ⟨q, hq, hm⟩ := markerOcc_joinParts h
    simp only [List.mem_cons, List.not_mem_nil, or_false] at hq
    rcases hq with hq | hq | hq | hq
    · rw [Option.some.inj hq] at hm
      have h5 : MarkerOcc ('[' :: (natDigits n ++ ']' :: ' ' ::
          (s.title ++ '.' :: ' ' :: '(' ::
            (fmt_date s.timestamp ("ymd".data) ++ [')', '.'])))) ds := by
        simpa using hm
      rcases markerOcc_head (natDigits_all_digit n) h5 with h6 | h6
      · exact h6
      · exact absurd ((markerOcc_cons_iff (by decide)).mp h6)
          (fun h7 => no_markerOcc_title_dot hti
            (by simp [lbrack_not_mem_fmt_date]) h7)
    · exfalso
      rcases hst : site_name s with _ | site
      · rw [hst] at hq
        simp at hq
      · rw [hst] at hq
        by_cases hse : site = []
        · rw [hse] at hq
          simp at hq
        · simp only [hse, if_false] at hq
          rw [Option.some.inj hq] at hm
          have hm2 : MarkerOcc (site ++ '.' :: []) ds := by simpa using hm
          rcases markerOcc_break (by decide) (by decide) hm2 with h3 | h3
          · obtain ⟨a, b, hab⟩ := site_name_infix hst
            have hurl : MarkerOcc s.url ds := by
              rw [hab]
              exact markerOcc_mono_left (markerOcc_mono_right h3)
            have h4 := mem_findMarkers_iff.mpr hurl
            rw [hur] at h4
            simp at h4
          · exact absurd ((markerOcc_cons_iff (by decide)).mp h3) not_markerOcc_nil
    · exfalso
      rw [Option.some.inj hq] at hm
      exact no_markerOcc_url_dot hur (by simpa using hm)
    · exfalso
      rcases hacc : fmt_accessed s ("apa".data) with _ | t
      · rw [hacc] at hq
        simp at hq
      · rw [hacc] at hq
        rw [Option.some.inj hq] at hm
        exact absurd hm (not_markerOcc_of_no_lbrack (fmt_accessed_no_lbrack hacc))
  · simp only [format_reference_chicago] at h
    obtain ⟨q, hq, hm⟩ := markerOcc_joinParts h
    simp only [List.mem_cons, List.not_mem_nil, or_false] at hq
    rcases hq with hq | hq | hq | hq | hq
    · rw [Option.some.inj hq] at hm
      have h5 : MarkerOcc ('[' :: (natDigits n ++ ']' :: ' ' ::
          (s.title ++ '.' :: []))) ds := by
        simpa using hm
      rcases markerOcc_head (natDigits_all_digit n) h5 with h6 | h6
      · exact h6
      · exact absurd ((markerOcc_cons_iff (by decide)).mp h6)
          (fun h7 => no_markerOcc_title_dot hti (by simp) h7)
    · exfalso
      rcases hst : site_name s with _ | site
      · rw [hst] at hq
        simp at hq
      · rw [hst] at hq
        by_cases hse : site = []
        · rw [hse] at hq
          simp at hq
        · simp only [hse, if_false] at hq
          rw [Option.some.inj hq] at hm
          have hm2 : MarkerOcc (site ++ '.' :: []) ds := by simpa using hm
          rcases markerOcc_break (by decide) (by decide) hm2 with h3 | h3
          · obtain ⟨a, b, hab⟩ := site_name_infix hst
            have hurl : MarkerOcc s.url ds := by
              rw [hab]
              exact markerOcc_mono_left (markerOcc_mono_right h3)
            have h4 := mem_findMarkers_iff.mpr hurl
            rw [hur] at h4
            simp at h4
          · exact absurd ((markerOcc_cons_iff (by decide)).mp h3) not_markerOcc_nil
    · exfalso
      rw [Option.some.inj hq] at hm
      have hm2 : MarkerOcc (fmt_date s.timestamp ("mdy".data) ++ '.' :: []) ds := by
        simpa using hm
      exact absurd hm2 (not_markerOcc_of_no_lbrack (by simp [lbrack_not_mem_fmt_date]))
    · exfalso
      rw [Option.some.inj hq] at hm
      exact no_markerOcc_url_dot hur (by simpa using hm)
    · exfalso
      rcases hacc : fmt_accessed s ("chicago".data) with _ | t
      · rw [hacc] at hq
        simp at hq
      · rw [hacc] at hq
        rw [Option.some.inj hq] at hm
        exact absurd hm (not_markerOcc_of_no_lbrack (fmt_accessed_no_lbrack hacc))
  · simp only [format_generic_reference] at h
    rcases hy : fromIso (replaceAllZ s.timestamp) with _ | dt <;> rw [hy] at h
    · have h5 : MarkerOcc ('[' :: (natDigits n ++ ']' :: ' ' ::
          (s.title ++ ' ' :: '(' :: ("n.d.".data ++ ')' :: '.' :: ' ' :: s.url)))) ds := by
        simpa using h
      rcases markerOcc_head (natDigits_all_digit n) h5 with h6 | h6
      · exact h6
      · exact absurd ((markerOcc_cons_iff (by decide)).mp h6)
          (fun h7 => generic_tail_no_marker hti hur (by decide) h7)
    · have h5 : MarkerOcc ('[' :: (natDigits n ++ ']' :: ' ' ::
          (s.title ++ ' ' :: '(' ::
            (natDigits dt.year ++ ')' :: '.' :: ' ' :: s.url)))) ds := by
        simpa using h
      rcases markerOcc_head (natDigits_all_digit n) h5 with h6 | h6
      · exact h6
      · exact absurd ((markerOcc_cons_iff (by decide)).mp h6)
          (fun h7 => generic_tail_no_marker hti hur (lbrack_not_mem_natDigits dt.year) h7)

theorem range'_one_succ (s m : Nat) : List.range' s (m + 1) = List.range' s m ++ [s + m] := by
  induction m generalizing s with
  | zero => simp [List.range']
  | succ k ih =>
    rw [List.range'_succ, ih (s + 1), List.range'_succ]
    simp
    omega

theorem citeQuotes_inv {L : List Text} {sid : Text} {st : CiteState}
    (hsid : sid ∈ L) (hinv : CiteInv L st) :
    ∀ quotes, CiteInv L (citeQuotes sid st quotes) := by
  intro quotes
  induction quotes with
  | nil => exact hinv
  | cons q rest ih =>
    by_cases h1 : (pyStrip q).length < 10
    · simp only [citeQuotes, if_pos h1]
      exact ih
    · by_cases h2 : (isSubstring q st.text && st.cited.all fun p => p.1 != sid) = true
      · rw [citeQuotes_hit sid st q rest h1 h2]
        obtain ⟨hmark, hmap, hcnt, hids⟩ := hinv
        have hsub : isSubstring q st.text = true := by
          have h3 := h2
          simp only [Bool.and_eq_true] at h3
          exact h3.1
        obtain ⟨a, b, hab, hrep⟩ := replaceFirst_decomp hsub
        refine ⟨?_, ?_, ?_, ?_⟩
        · intro ds hds
          simp only at hds
          rw [hrep] at hds
          have hds2 : MarkerOcc ((a ++ q) ++ ' ' ::
              ('[' :: (natDigits st.counter ++ ']' :: b))) ds := by
            simpa [List.append_assoc] using hds
          rcases markerOcc_break (by decide) (by decide) hds2 with h3 | h3
          · have h4 : MarkerOcc st.text ds := by
              rw [hab]
              simpa [List.append_assoc] using
                (@markerOcc_mono_left (a ++ q) b ds h3)
            obtain ⟨k, hk1, hk2, hk3⟩ := hmark ds h4
            exact ⟨k, hk1, Nat.lt_succ_of_lt hk2, hk3⟩
          · have h4 := (markerOcc_cons_iff (by decide)).mp h3
            rcases markerOcc_head (natDigits_all_digit st.counter) h4 with h5 | h5
            · exact ⟨st.counter, hcnt, Nat.lt_succ_self _, h5⟩
            · have h6 : MarkerOcc st.text ds := by
                rw [hab]
                simpa [List.append_assoc] using
                  (@markerOcc_mono_right (a ++ q) b ds h5)
              obtain ⟨k, hk1, hk2, hk3⟩ := hmark ds h6
              exact ⟨k, hk1, Nat.lt_succ_of_lt hk2, hk3⟩
        · simp only [List.map_append, List.map_cons, List.map_nil, hmap]
          rw [show st.counter + 1 - 1 = (st.counter - 1) + 1 from by omega]
          rw [range'_one_succ]
          rw [show 1 + (st.counter - 1) = st.counter from by omega]
        · exact Nat.le_succ_of_le hcnt
        · intro p hp
          simp only at hp
          rcases List.mem_append.mp hp with hp2 | hp2
          · exact hids p hp2
          · simp at hp2
            rw [hp2]
            exact hsid
      · simp only [citeQuotes, if_neg h1, if_neg h2]
        exact ih

theorem citePass_inv_aux {L : List Text} :
    ∀ (l : List (Text × Source)) (st : CiteState),
      (∀ e ∈ l, e.1 ∈ L) → CiteInv L st →
      CiteInv L (l.foldl (fun st e => citeQuotes e.1 st e.2.relevant_quotes) st) := by
  intro l
  induction l with
  | nil =>
    intro st h hinv
    exact hinv
  | cons e rest ih =>
    intro st h hinv
    rw [List.foldl_cons]
    exact ih _ (fun x hx => h x (by simp [hx]))
      (citeQuotes_inv (h e (by simp)) hinv e.2.relevant_quotes)

theorem citePass_inv (sorted : List (Text × Source)) (text : Text)
    (hclean : findMarkers text = []) :
    CiteInv (sorted.map Prod.fst) (citePass sorted text) := by
  rw [citePass]
  have hbase : CiteInv (sorted.map Prod.fst) ⟨text, [], 1⟩ := by
    refine ⟨?_, rfl, le_refl 1, fun p hp => absurd hp (List.not_mem_nil p)⟩
    intro ds hds
    have h2 := mem_findMarkers_iff.mpr hds
    rw [hclean] at h2
    simp at h2
  exact citePass_inv_aux sorted ⟨text, [], 1⟩
    (fun e he => List.mem_map_of_mem Prod.fst he) hbase

theorem intercalate_line_decomp :
    ∀ (lines : List Text) (pre l : Text), l ∈ lines → (∃ z, pre = z ++ ['\n']) →
      ∃ x y, pre ++ List.intercalate ['\n'] lines = x ++ '\n' :: (l ++ y) := by
  intro lines
  induction lines with
  | nil =>
    intro pre l h hp
    simp at h
  | cons a rest ih =>
    intro pre l hl hpre
    obtain ⟨z, rfl⟩ := hpre
    rcases List.mem_cons.mp hl with rfl | hl2
    · obtain ⟨w, hw⟩ := intercalate_cons_ex ['\n'] l rest
      refine ⟨z, w, ?_⟩
      rw [hw]
      simp
    · cases rest with
      | nil => simp at hl2
      | cons b bs =>
        rw [intercalate_cons_of_ne_nil ['\n'] a (by simp)]
        obtain ⟨x, y, hxy⟩ := ih ((z ++ ['\n']) ++ a ++ ['\n']) l hl2 ⟨(z ++ ['\n']) ++ a, rfl⟩
        refine ⟨x, y, ?_⟩
        rw [← hxy]
        simp

theorem lookup_mem {l : List (Text × Source)} {a : Text} {s : Source}
    (h : l.lookup a = some s) : (a, s) ∈ l := by
  induction l with
  | nil => simp [List.lookup] at h
  | cons e rest ih =>
    rw [List.lookup] at h
    cases he : (a == e.1) with
    | true =>
      rw [he] at h
      have h1 : a = e.1 := by simpa using he
      have h2 : s = e.2 := by simpa using (Option.some.inj h).symm
      rw [h1, h2]
      simp
    | false =>
      rw [he] at h
      exact List.mem_cons_of_mem e (ih h)

theorem mem_range_one_iff (k m : Nat) : k ∈ List.range' 1 m ↔ 1 ≤ k ∧ k < 1 + m := by
  rw [List.mem_range'_1]

theorem validate_errors_of_no_markers {t : Text} (h : findMarkers t = []) :
    (validate_citations t).errors = [] := by
  simp only [validate_citations]
  rw [h]
  rfl

theorem refs_cover {style : Text} {F : List (Text × Source)} {cited : List (Text × Nat)}
    {body : Text} {k : Nat}
    (hids : ∀ p ∈ cited, p.1 ∈ (sortByCredDesc F).map Prod.fst)
    (hk : k ∈ cited.map Prod.snd) :
    natDigits k ∈ lineStartMarkers
      (body ++ "\n\n## References\n\n".data ++ generate_references style F cited) := by
  have hperm := (sortByNumAsc_perm cited).map Prod.snd
  have hk2 : k ∈ (sortByNumAsc cited).map Prod.snd := hperm.mem_iff.mpr hk
  obtain ⟨p, hp, hpk⟩ := List.mem_map.mp hk2
  have hpc : p ∈ cited := (sortByNumAsc_perm cited).mem_iff.mp hp
  have hkey : p.1 ∈ F.map Prod.fst :=
    ((sortByCredDesc_perm F).map Prod.fst).mem_iff.mp (hids p hpc)
  obtain ⟨s, hs⟩ := lookup_isSome_of_mem_keys hkey
  obtain ⟨rest, hshape⟩ := format_reference_head style s p.2
  have hline : format_reference style s p.2 ∈
      (sortByNumAsc cited).map (fun p => match F.lookup p.1 with
        | some s2 => format_reference style s2 p.2
        | none => []) := by
    have h1 := List.mem_map_of_mem (fun p => match F.lookup p.1 with
        | some s2 => format_reference style s2 p.2
        | none => []) hp
    simpa [hs] using h1
  obtain ⟨x, y, hxy⟩ := intercalate_line_decomp
      ((sortByNumAsc cited).map (fun p => match F.lookup p.1 with
        | some s2 => format_reference style s2 p.2
        | none => []))
      (body ++ "\n\n## References\n\n".data) (format_reference style s p.2) hline
      ⟨body ++ "\n\n## References\n".data, by simp⟩
  rw [hshape] at hxy
  have hgen : generate_references style F cited = List.intercalate ['\n']
      ((sortByNumAsc cited).map (fun p => match F.lookup p.1 with
        | some s2 => format_reference style s2 p.2
        | none => [])) := by
    rw [generate_references]
  have hout2 : body ++ "\n\n## References\n\n".data ++ generate_references style F cited =
      x ++ '\n' :: ('[' :: (natDigits p.2 ++ ']' :: (' ' :: rest ++ y))) := by
    rw [hgen, hxy]
    simp
  rw [hout2, ← hpk]
  exact mem_lineStartMarkers_of_newline x (' ' :: rest ++ y)

theorem out_marker_bound {style : Text} {F : List (Text × Source)}
    {cited : List (Text × Nat)} {body ds : Text} {cnt : Nat}
    (hsrcF : ∀ e ∈ F, findMarkers e.2.title = [] ∧ findMarkers e.2.url = [])
    (hmark : ∀ ds2, MarkerOcc body ds2 → ∃ k, 1 ≤ k ∧ k < cnt ∧ ds2 = natDigits k)
    (hmap : cited.map Prod.snd = List.range' 1 (cnt - 1))
    (hcnt : 1 ≤ cnt)
    (h : MarkerOcc (body ++ "\n\n## References\n\n".data ++
      generate_references style F cited) ds) :
    ∃ k, 1 ≤ k ∧ k < cnt ∧ ds = natDigits k := by
  have h2 : MarkerOcc (body ++ '\n' ::
      ("\n## References\n\n".data ++ generate_references style F cited)) ds := by
    simpa [List.append_assoc] using h
  rcases markerOcc_break (by decide) (by decide) h2 with h3 | h3
  · exact hmark ds h3
  · have h4 := (markerOcc_cons_iff (by decide)).mp h3
    have h5 := markerOcc_of_no_lbrack (by decide) h4
    have h6 : MarkerOcc (List.intercalate ['\n']
        ((sortByNumAsc cited).map (fun p => match F.lookup p.1 with
          | some s2 => format_reference style s2 p.2
          | none => []))) ds := h5
    obtain ⟨l, hl, hm⟩ :=
      @markerOcc_intercalate '\n' (by decide) (by decide) (by decide) _ ds h6
    obtain ⟨p, hp, hlp⟩ := List.mem_map.mp hl
    rcases hlk : F.lookup p.1 with _ | s
    · rw [hlk] at hlp
      have hlp2 : ([] : Text) = l := hlp
      rw [← hlp2] at hm
      exact absurd hm not_markerOcc_nil
    · rw [hlk] at hlp
      have hlp2 : format_reference style s p.2 = l := hlp
      have hmem := lookup_mem hlk
      obtain ⟨hti, hur⟩ := hsrcF (p.1, s) hmem
      rw [← hlp2] at hm
      have hds := markerOcc_format_reference hti hur hm
      have hp2 : p.2 ∈ cited.map Prod.snd :=
        List.mem_map_of_mem Prod.snd ((sortByNumAsc_perm cited).mem_iff.mp hp)
      rw [hmap, mem_range_one_iff] at hp2
      exact ⟨p.2, hp2.1, by omega, hds⟩

theorem validate_errors_of_covered {t : Text}
    (h : ∀ ds ∈ findMarkers t, digitsVal ds ∈ (lineStartMarkers t).map digitsVal) :
    (validate_citations t).errors = [] := by
  simp only [validate_citations]
  have hfil : (((findMarkers t).map digitsVal).dedup.filter
      (fun n => !(((lineStartMarkers t).map digitsVal).dedup.contains n))) = [] := by
    rw [List.eq_nil_iff_forall_not_mem]
    intro n hn
    rw [List.mem_filter] at hn
    obtain ⟨hn1, hn2⟩ := hn
    rw [List.mem_dedup] at hn1
    obtain ⟨ds, hds, rfl⟩ := List.mem_map.mp hn1
    have h3 : digitsVal ds ∈ ((lineStartMarkers t).map digitsVal).dedup :=
      List.mem_dedup.mpr (h ds hds)
    simp [h3] at hn2
  simp only [hfil, List.map_nil]

/-- C1 (amended): when the input text and every source's title and url are
free of citation markers, validating the placer's output reports no
errors: every marker in the output carries an assigned citation number,
and each assigned number heads a reference line of the appended reference
section.  (Without the marker-freeness hypotheses the round trip can fail,
see the counterexample.) -/
theorem c1_roundtrip_amended (style : Text) (sources : List (Text × Source))
    (text : Text) (minCred : ℚ)
    (hclean : findMarkers text = [])
    (hsrc : ∀ e ∈ sources, findMarkers e.2.title = [] ∧ findMarkers e.2.url = []) :
    (validate_citations (apply_citations style sources text minCred)).errors = [] := by
  cases hf : (sources.filter fun e => minCred ≤ e.2.credibility_score).isEmpty with
  | true =>
    have hout : apply_citations style sources text minCred = text := by
      simp [apply_citations, hf]
    rw [hout]
    exact validate_errors_of_no_markers hclean
  | false =>
    obtain ⟨hmark, hmap, hcnt, hids⟩ :=
      citePass_inv
        (sortByCredDesc (sources.filter fun e => minCred ≤ e.2.credibility_score))
        text hclean
    cases hc : (citePass (sortByCredDesc
        (sources.filter fun e => minCred ≤ e.2.credibility_score)) text).cited.isEmpty with
    | true =>
      have hout : apply_citations style sources text minCred =
          (citePass (sortByCredDesc
            (sources.filter fun e => minCred ≤ e.2.credibility_score)) text).text := by
        simp [apply_citations, hf, hc]
      have hcited : (citePass (sortByCredDesc
          (sources.filter fun e => minCred ≤ e.2.credibility_score)) text).cited = [] := by
        simpa using hc
      have hc1 : (citePass (sortByCredDesc
          (sources.filter fun e => minCred ≤ e.2.credibility_score)) text).counter = 1 := by
        rw [hcited] at hmap
        simp only [List.map_nil] at hmap
        rw [eq_comm, List.range'_eq_nil] at hmap
        omega
      have hfm : findMarkers (citePass (sortByCredDesc
          (sources.filter fun e => minCred ≤ e.2.credibility_score)) text).text = [] := by
        rw [List.eq_nil_iff_forall_not_mem]
        intro ds hds
        obtain ⟨k, hk1, hk2, _⟩ := hmark ds (mem_findMarkers_iff.mp hds)
        rw [hc1] at hk2
        omega
      rw [hout]
      exact validate_errors_of_no_markers hfm
    | false =>
      have hout : apply_citations style sources text minCred =
          (citePass (sortByCredDesc
            (sources.filter fun e => minCred ≤ e.2.credibility_score)) text).text ++
          "\n\n## References\n\n".data ++
          generate_references style
            (sources.filter fun e => minCred ≤ e.2.credibility_score)
            (citePass (sortByCredDesc
              (sources.filter fun e => minCred ≤ e.2.credibility_score)) text).cited := by
        simp [apply_citations, hf, hc]
      rw [hout]
      have hsrcF : ∀ e ∈ (sources.filter fun e => minCred ≤ e.2.credibility_score),
          findMarkers e.2.title = [] ∧ findMarkers e.2.url = [] :=
        fun e he => hsrc e (List.mem_of_mem_filter he)
      apply validate_errors_of_covered
      intro ds hds
      obtain ⟨k, hk1, hk2, rfl⟩ :=
        out_marker_bound hsrcF hmark hmap hcnt (mem_findMarkers_iff.mp hds)
      rw [digitsVal_natDigits]
      have hkmem : k ∈ (citePass (sortByCredDesc
          (sources.filter fun e => minCred ≤ e.2.credibility_score)) text).cited.map
            Prod.snd := by
        rw [hmap, mem_range_one_iff]
        omega
      have hcov := @refs_cover style
        (sources.filter fun e => minCred ≤ e.2.credibility_score)
        (citePass (sortByCredDesc
          (sources.filter fun e => minCred ≤ e.2.credibility_score)) text).cited
        (citePass (sortByCredDesc
          (sources.filter fun e => minCred ≤ e.2.credibility_score)) text).text
        k hids hkmem
      exact List.mem_map.mpr ⟨natDigits k, hcov, digitsVal_natDigits k⟩

/-- C1 (counterexample): a stray marker in the input survives to the
output, the placer still inserts a citation, and validation reports a
missing reference for the stray number — the round-trip property fails
without the marker-freeness hypotheses. -/
theorem c1_counterexample :
    (citePass (sortByCredDesc [("X".data, c1Src)]) c1Text).cited ≠ [] ∧
    (validate_citations (apply_citations ("apa".data) [("X".data, c1Src)] c1Text
      (mkRat 1 2))).errors =
      ["Citation [7] has no corresponding reference".data] := by decide

/-- C1 (witness): the amended round trip at the spec's concrete scenario:
clean text, one credible source whose quote matches, no validation errors. -/
theorem c1_witness :
    findMarkers c1wText = [] ∧
    (citePass (sortByCredDesc [("S".data, c9Source)]) c1wText).cited =
      [("S".data, 1)] ∧
    (validate_citations (apply_citations ("apa".data) [("S".data, c9Source)] c1wText
      (mkRat 1 2))).errors = [] :=
  ⟨by decide, by decide,
   c1_roundtrip_amended ("apa".data) [("S".data, c9Source)] c1wText (mkRat 1 2)
     (by decide) (by decide)⟩

end Citations
